import Mathlib

/-
Verification of the Action Execution & Synchronization Engine.

Shallow embedding of:
  * `FilesStore` (src/app/lib/stores/files.ts, first document): the virtual
    file store with modification tracking;
  * the `e2bStore` module with its pending-operation queue
    (src/app/lib/stores/files.ts, second document);
  * `ActionRunner` (src/app/lib/.server/llm/openrouter.ts, fourth document):
    the per-turn serialized action executor;
  * `WorkbenchStore.syncMissingFiles` (src/app/lib/stores/workbench.ts): the
    reconciliation pass.

Modelling conventions:
  * JavaScript `Map` / nanostores `map` objects become association lists
    whose `setKey` replaces in place or appends, mirroring insertion order.
  * Promise-returning sandbox callbacks become `Except String`-valued
    functions: `Except.ok v` is a resolved promise, `Except.error m` a
    rejected one.  A promise chain running on the single-threaded event
    loop is interpreted as sequential composition.
  * `localStorage` persistence and logging are effect-free in the model.
-/

namespace Engine

/-- Modelled from the spec: the fixed work-directory constant `WORK_DIR`
comes from `~/utils/constants`, which is not part of the source tree; the
spec (sections 6 and 8) fixes it as the absolute path "/project". -/
def WORK_DIR : String := "/project"

/-- One list is a prefix of another (char-by-char). -/
def leadChars : List Char → List Char → Bool
  | [], _ => true
  | _ :: _, [] => false
  | a :: as, b :: bs => if a = b then leadChars as bs else false

/-- JS `String.prototype.startsWith` / its uses of `startsWith` in the
source, computed structurally over the characters. -/
def strStartsWith (s p : String) : Bool :=
  leadChars p.toList s.toList

def splitGo (sep : Char) : List Char → List Char → List String
  | [], cur => [String.mk cur.reverse]
  | c :: rest, cur =>
    if c = sep then String.mk cur.reverse :: splitGo sep rest []
    else splitGo sep rest (c :: cur)

/-- JS `String.prototype.split` with a one-character separator (the source
only ever splits on "/"): `"a//b".split("/") = ["a","","b"]`,
`"".split("/") = [""]`. -/
def splitOnChar (sep : Char) (s : String) : List String :=
  splitGo sep s.toList []

/-- JS `filePath.replace(/^\//, '')`. -/
def stripLeadingSlash (s : String) : String :=
  if strStartsWith s "/" then String.mk (s.toList.drop 1) else s

/-- Dirent, the tagged union stored in the file map
(`File {content, isBinary} | Folder {}` in files.ts). -/
inductive Dirent where
  | file (content : String) (isBinary : Bool)
  | folder
deriving DecidableEq, Repr

/-- Association-list model of a nanostores `MapStore` record (a JS object:
keys are unique, insertion order preserved): property lookup. -/
def getEntry : List (String × Dirent) → String → Option Dirent
  | [], _ => none
  | e :: rest, k => if e.1 = k then some e.2 else getEntry rest k

/-- `map.setKey k v` (JS property assignment): replace the value at `k` in
place if present, else append a new entry. -/
def setKey : List (String × Dirent) → String → Dirent → List (String × Dirent)
  | [], k, v => [(k, v)]
  | e :: rest, k, v => if e.1 = k then (k, v) :: rest else e :: setKey rest k v

/-- JS `Map.has`. -/
def hasKey : List (String × String) → String → Bool
  | [], _ => false
  | e :: rest, k => if e.1 = k then true else hasKey rest k

/-- JS `Map.set`: replace at the key in place if present, else append. -/
def mapSet : List (String × String) → String → String → List (String × String)
  | [], k, v => [(k, v)]
  | e :: rest, k, v => if e.1 = k then (k, v) :: rest else e :: mapSet rest k v

/-- JS `Map.get`. -/
def mapGet : List (String × String) → String → Option String
  | [], _ => none
  | e :: rest, k => if e.1 = k then some e.2 else mapGet rest k

/-- The scan inside node's posix `path.dirname`: walking indices from the
end of the string down to 1, find the last slash that has a non-slash
character somewhere to its right. -/
def dirScan (cs : List Char) : Nat → Bool → Option Nat
  | 0, _ => none
  | i + 1, matched =>
    if cs.getD (i + 1) ' ' = '/' then
      if matched then dirScan cs i matched else some (i + 1)
    else dirScan cs i false

/-- node's `path.dirname` for posix paths (used by `addFile`). -/
def dirname (p : String) : String :=
  let cs := p.toList
  if cs.length = 0 then "."
  else
    let hasRoot := cs.headD ' ' = '/'
    match dirScan cs (cs.length - 1) true with
    | none => if hasRoot then "/" else "."
    | some e => if hasRoot ∧ e = 1 then "//" else String.mk (cs.take e)

/-- `FilesStore` state: the file-count counter `#size`, the modification
baseline `#modifiedFiles`, and the `files` map. -/
structure FilesStore where
  size : Nat
  modifiedFiles : List (String × String)
  files : List (String × Dirent)
deriving DecidableEq, Repr

def emptyFilesStore : FilesStore := ⟨0, [], []⟩

/-- `FilesStore.getFile`: returns the dirent only when it is a File. -/
def FilesStore.getFile (fs : FilesStore) (filePath : String) : Option Dirent :=
  match getEntry fs.files filePath with
  | some (Dirent.file c b) => some (Dirent.file c b)
  | _ => none

/-- Content of a File dirent. -/
def fileContent : Option Dirent → Option String
  | some (Dirent.file c _) => some c
  | _ => none

/-- `FilesStore.saveFile`: record the first-touch baseline, then upsert the
file.  Persistence to the blob store is effect-free in the model; `#size`
is not touched (the source does not increment it here either). -/
def FilesStore.saveFile (fs : FilesStore) (filePath content : String) : FilesStore :=
  let oldContent := fileContent (fs.getFile filePath)
  let modifiedFiles :=
    if hasKey fs.modifiedFiles filePath = false then
      match oldContent with
      | some old => mapSet fs.modifiedFiles filePath old
      | none => fs.modifiedFiles
    else fs.modifiedFiles
  { fs with
    modifiedFiles := modifiedFiles,
    files := setKey fs.files filePath (Dirent.file content false) }

/-- `FilesStore.resetFileModifications`. -/
def FilesStore.resetFileModifications (fs : FilesStore) : FilesStore :=
  { fs with modifiedFiles := [] }

/-- `#ensureFolderExists`: split the folder path on `/`, drop empty parts,
and create a Folder entry for every prefix that has no entry yet. -/
def ensureFolderExists (fs : FilesStore) (folderPath : String) : FilesStore :=
  let parts := (splitOnChar '/' folderPath).filter (fun s => s ≠ "")
  (parts.foldl
    (fun acc part =>
      let currentPath :=
        if acc.2 ≠ "" then acc.2 ++ "/" ++ part else "/" ++ part
      match getEntry acc.1.files currentPath with
      | none =>
        ({ acc.1 with files := setKey acc.1.files currentPath Dirent.folder },
          currentPath)
      | some _ => (acc.1, currentPath))
    (fs, "")).1

/-- `FilesStore.addFile`: normalize under `WORK_DIR`, ensure parent folders,
upsert the file, increment `#size`. -/
def FilesStore.addFile (fs : FilesStore) (filePath content : String) : FilesStore :=
  let normalizedPath :=
    if strStartsWith filePath WORK_DIR then filePath
    else WORK_DIR ++ "/" ++ filePath
  let folder := dirname normalizedPath
  let fs1 :=
    if folder ≠ "." ∧ folder ≠ WORK_DIR then ensureFolderExists fs folder else fs
  { fs1 with
    files := setKey fs1.files normalizedPath (Dirent.file content false),
    size := fs1.size + 1 }

/-- The key under which `addFile` stores a path (its normalization). -/
def normalizeLocal (filePath : String) : String :=
  if strStartsWith filePath WORK_DIR then filePath
  else WORK_DIR ++ "/" ++ filePath

/-! ## The e2b store module (SandboxLink)

Module-level mutable state of the second document of
src/app/lib/stores/files.ts: the `e2bState` nanostores map, the six
callback variables, the `pendingOperations` queue and the
`isProcessingQueue` flag.  Each queued operation carries the `resolve` /
`reject` functions of the promise originally handed to the caller; the
model instead gives every queued operation a fresh numeric id and records
the settlement of that promise in an instrumentation list `settlements`
(`resolved v` for `op.resolve(v)`, `rejected m` for `op.reject(m)`).
`sandboxInstance` is written only by `reset` and never read, so it is not
modelled. -/

/-- The `E2BState` record held in the `e2bState` nanostores map. -/
structure E2BConn where
  apiKey : String
  isConnected : Bool
  isConnecting : Bool
  sandboxId : Option String
  error : Option String
  isSyncing : Bool
  autoCreateTriggered : Bool
deriving DecidableEq, Repr

/-- `initialState` from the source. -/
def initialConn : E2BConn :=
  ⟨"", false, false, none, none, false, false⟩

/-- `PendingOperation.type`. -/
inductive OpType where
  | writeFile
  | makeDirectory
  | runCommand
deriving DecidableEq, Repr

/-- A `PendingOperation`: the optional fields mirror the source record;
`opId` identifies the promise returned to the queuing caller. -/
structure PendingOperation where
  type : OpType
  path : Option String
  content : Option String
  command : Option String
  opId : Nat
deriving DecidableEq, Repr

/-- How a queued operation's promise was settled. -/
inductive Settle where
  | resolved (value : Bool)
  | rejected (msg : String)
deriving DecidableEq, Repr

/-- The callbacks record passed to `registerSandboxCallbacks`.  Promise
results are `Except String` values; `getActiveTerminalId` is the value the
component would return at registration time.  (`setActiveTerminalId` is
also part of the source record but is only handed out, never stored, so it
is not modelled.) -/
structure SandboxCallbacks where
  writeFile : String → String → Except String Bool
  makeDirectory : String → Except String Bool
  runCommand : String → Except String Unit
  sendTerminalInput : String → String → Except String Unit
  createSandbox : Except String Unit
  getActiveTerminalId : Option String

/-- The whole module state of the e2b store. -/
structure E2BStore where
  state : E2BConn
  terminalSendInput : Option (String → String → Except String Unit)
  fileWriteCallback : Option (String → String → Except String Bool)
  makeDirectoryCallback : Option (String → Except String Bool)
  runCommandCallback : Option (String → Except String Unit)
  createSandboxCallback : Option (Except String Unit)
  activeTerminalId : Option String
  pendingOperations : List PendingOperation
  isProcessingQueue : Bool
  settlements : List (Nat × Settle)
  nextOpId : Nat

/-- The module state at load time. -/
def initialE2B : E2BStore :=
  ⟨initialConn, none, none, none, none, none, none, [], false, [], 0⟩

/-- One iteration of the `processQueue` switch: run the operation against
the three operation callbacks, replicating the JS truthiness checks
(`op.path` and `op.command` are falsy when absent or empty,
`op.content !== undefined` only requires presence).  `Except.ok v` is the
value passed to `op.resolve`, `Except.error m` the error passed to
`op.reject`. -/
def runOp (fw : Option (String → String → Except String Bool))
    (md : Option (String → Except String Bool))
    (rc : Option (String → Except String Unit))
    (op : PendingOperation) : Except String Bool :=
  match op.type with
  | OpType.writeFile =>
    match fw, op.path, op.content with
    | some cb, some p, some c =>
      if p = "" then Except.ok false else cb p c
    | _, _, _ => Except.ok false
  | OpType.makeDirectory =>
    match md, op.path with
    | some cb, some p =>
      if p = "" then Except.ok false else cb p
    | _, _ => Except.ok false
  | OpType.runCommand =>
    match rc, op.command with
    | some cb, some c =>
      if c = "" then Except.ok false
      else match cb c with
        | Except.ok _ => Except.ok true
        | Except.error m => Except.error m
    | _, _ => Except.ok false

/-- Settlement produced by one drain iteration. -/
def settleOf (fw : Option (String → String → Except String Bool))
    (md : Option (String → Except String Bool))
    (rc : Option (String → Except String Unit))
    (op : PendingOperation) : Settle :=
  match runOp fw md rc op with
  | Except.ok v => Settle.resolved v
  | Except.error m => Settle.rejected m

/-- The `while (pendingOperations.length > 0)` loop of `processQueue`:
shift each operation in FIFO order and settle its promise. -/
def drainOps (st : E2BStore) : List PendingOperation → E2BStore
  | [] => st
  | op :: rest =>
    let s := settleOf st.fileWriteCallback st.makeDirectoryCallback
      st.runCommandCallback op
    drainOps { st with settlements := st.settlements ++ [(op.opId, s)] } rest

/-- `processQueue`: early return when already processing, when the queue is
empty, or when the write / mkdir callbacks are missing; otherwise drain the
whole queue. -/
def processQueue (st : E2BStore) : E2BStore :=
  if st.isProcessingQueue || st.pendingOperations.isEmpty then st
  else if st.fileWriteCallback.isNone || st.makeDirectoryCallback.isNone then st
  else
    let ops := st.pendingOperations
    let st1 := { st with isProcessingQueue := true, pendingOperations := [] }
    let st2 := drainOps st1 ops
    { st2 with isProcessingQueue := false }

/-- `registerSandboxCallbacks`: install all callbacks, read the active
terminal id, then process the queue. -/
def registerSandboxCallbacks (st : E2BStore) (cbs : SandboxCallbacks) : E2BStore :=
  let st1 := { st with
    fileWriteCallback := some cbs.writeFile,
    makeDirectoryCallback := some cbs.makeDirectory,
    runCommandCallback := some cbs.runCommand,
    terminalSendInput := some cbs.sendTerminalInput,
    createSandboxCallback := some cbs.createSandbox,
    activeTerminalId := cbs.getActiveTerminalId }
  processQueue st1

/-- `setConnected(connected, sandboxId = null)`: the JS signature defaults
`sandboxId` to `null`; a call without a second argument is
`setConnected st connected none` here. -/
def setConnected (st : E2BStore) (connected : Bool) (sandboxId : Option String) :
    E2BStore :=
  { st with state := { st.state with
      isConnected := connected,
      sandboxId := sandboxId,
      isConnecting := false } }

/-- `setConnecting`. -/
def setConnecting (st : E2BStore) (connecting : Bool) : E2BStore :=
  { st with state := { st.state with isConnecting := connecting } }

/-- Outcome of a public sandbox operation: a directly returned value
(`direct`), or a promise that was queued (`queued opId`). -/
inductive CallOutcome (α : Type) where
  | direct (result : Except String α)
  | queued (opId : Nat)

/-- `e2bStore.writeFile`: call the callback directly if installed; queue
while connecting or connected; fail fast with `false` otherwise. -/
def e2bWriteFile (st : E2BStore) (path content : String) :
    E2BStore × CallOutcome Bool :=
  match st.fileWriteCallback with
  | some cb => (st, CallOutcome.direct (cb path content))
  | none =>
    if st.state.isConnecting || st.state.isConnected then
      let op : PendingOperation :=
        ⟨OpType.writeFile, some path, some content, none, st.nextOpId⟩
      ({ st with
          pendingOperations := st.pendingOperations ++ [op],
          nextOpId := st.nextOpId + 1 },
        CallOutcome.queued st.nextOpId)
    else (st, CallOutcome.direct (Except.ok false))

/-- `e2bStore.makeDirectory` (same policy as `writeFile`). -/
def e2bMakeDirectory (st : E2BStore) (path : String) :
    E2BStore × CallOutcome Bool :=
  match st.makeDirectoryCallback with
  | some cb => (st, CallOutcome.direct (cb path))
  | none =>
    if st.state.isConnecting || st.state.isConnected then
      let op : PendingOperation :=
        ⟨OpType.makeDirectory, some path, none, none, st.nextOpId⟩
      ({ st with
          pendingOperations := st.pendingOperations ++ [op],
          nextOpId := st.nextOpId + 1 },
        CallOutcome.queued st.nextOpId)
    else (st, CallOutcome.direct (Except.ok false))

/-- `e2bStore.runCommand` (queues like `writeFile`; a disconnected call
only logs). -/
def e2bRunCommand (st : E2BStore) (command : String) :
    E2BStore × CallOutcome Unit :=
  match st.runCommandCallback with
  | some cb => (st, CallOutcome.direct (cb command))
  | none =>
    if st.state.isConnecting || st.state.isConnected then
      let op : PendingOperation :=
        ⟨OpType.runCommand, none, none, some command, st.nextOpId⟩
      ({ st with
          pendingOperations := st.pendingOperations ++ [op],
          nextOpId := st.nextOpId + 1 },
        CallOutcome.queued st.nextOpId)
    else (st, CallOutcome.direct (Except.ok ()))

/-- `e2bStore.isReady` (queued version): connected with a write callback,
or still connecting. -/
def e2bIsReady (st : E2BStore) : Bool :=
  (st.state.isConnected && st.fileWriteCallback.isSome) || st.state.isConnecting

/-- `e2bStore.reset`: restore `e2bState` to `initialState`, drop every
callback, and reject each still-queued operation with the
"E2B sandbox reset" error, in shift (FIFO) order. -/
def e2bReset (st : E2BStore) : E2BStore :=
  { st with
    state := initialConn,
    terminalSendInput := none,
    fileWriteCallback := none,
    makeDirectoryCallback := none,
    runCommandCallback := none,
    createSandboxCallback := none,
    activeTerminalId := none,
    settlements := st.settlements ++
      st.pendingOperations.map (fun op => (op.opId, Settle.rejected "E2B sandbox reset")),
    pendingOperations := [] }

/-! ## ActionRunner

src/app/lib/.server/llm/openrouter.ts (fourth document).  The runner's
sandbox interaction (`e2bStore.isReady` / `makeDirectory` / `writeFile` /
`runCommand`) is abstracted by an oracle `Sandbox`: `ready` is the value of
`isReady()`, and `respond n c` is the settlement of the `n`-th sandbox call
of the turn (`SbResult.ok v` for a promise resolved with `v`,
`SbResult.thrown m` for a rejected one — rejections arise from a throwing
driver callback or from a queued operation rejected by `reset`).
Quantifying over the oracle covers every pattern of fast, slow, queued,
failing and throwing sandbox calls.

The single promise chain `#currentExecutionPromise` is interpreted
sequentially, which is its semantics on the single-threaded event loop:
`runAction` synchronously appends `#executeAction(actionId)` to the chain
(the `chain` list); `addAction` attaches a status-visibility update to the
tail existing at registration time (recorded as a pair of the current
chain length and the action id in `updates`, since a `.then` continuation
attached to the promise after `n` chained executions fires exactly when
those `n` executions have settled, before any continuation attached to
that promise later).  `runChain` then lets everything settle. -/

/-- `BoltAction`: the action payload. -/
inductive BoltAction where
  | file (filePath : String) (content : String)
  | shell (content : String)
deriving DecidableEq, Repr

/-- `ActionState` minus the payload: `status`, `executed`, the abort
signal's `aborted` flag, and the `error` field of failed actions.  The
`abort` closure is `abortAction` below. -/
structure ActionState where
  action : BoltAction
  status : String
  executed : Bool
  signalAborted : Bool
  error : Option String
deriving DecidableEq, Repr

/-- `ActionCallbackData` as consumed by the runner (`messageId` is only
used by the workbench dispatch and is omitted). -/
structure ActionCallbackData where
  actionId : String
  action : BoltAction
deriving DecidableEq, Repr

/-- A sandbox call made by the runner or the reconciler. -/
inductive SbCall where
  | mkdir (path : String)
  | write (path : String) (content : String)
  | runCmd (command : String)
deriving DecidableEq, Repr

/-- Settlement of one sandbox call's promise. -/
inductive SbResult where
  | ok (value : Bool)
  | thrown (msg : String)
deriving DecidableEq, Repr

/-- The sandbox oracle. -/
structure Sandbox where
  ready : Bool
  respond : Nat → SbCall → SbResult

/-- Events recorded by the instrumented interpretation: the `n`-th sandbox
call, and the begin / finish of each action's execution (`finishEv`
carries the terminal status written by `#executeAction`). -/
inductive TraceEv where
  | callEv (index : Nat) (c : SbCall)
  | beginEv (id : String)
  | finishEv (id : String) (status : String)
deriving DecidableEq, Repr

/-- Whole state of one `ActionRunner` instance plus its instrumentation:
the `actions` map (association list in insertion order), the ids appended
to the continuation chain in submission order, the scheduled
status-visibility updates of `addAction` (chain length at registration,
action id), the shared `FilesStore`, the sandbox call counter and the
event trace. -/
structure Runner where
  actions : List (String × ActionState)
  chain : List String
  updates : List (Nat × String)
  fs : FilesStore
  callCount : Nat
  trace : List TraceEv
deriving DecidableEq, Repr

/-- A fresh `ActionRunner` over a files store. -/
def initialRunner (fs : FilesStore) : Runner := ⟨[], [], [], fs, 0, []⟩

/-- `this.actions.get()[actionId]` (JS object property lookup; keys are
unique). -/
def lookupAction : List (String × ActionState) → String → Option ActionState
  | [], _ => none
  | e :: rest, id => if e.1 = id then some e.2 else lookupAction rest id

/-- `#updateAction`: `setKey(id, { ...actions[id], ...newState })`, modelled
as a function update applied at the key.  (With an id that is absent the
source would store a malformed partial record; every call site passes an
id created by `addAction`, so the model leaves the map unchanged there.) -/
def mapAction : List (String × ActionState) → String →
    (ActionState → ActionState) → List (String × ActionState)
  | [], _, _ => []
  | e :: rest, id, f =>
    if e.1 = id then (e.1, f e.2) :: rest else e :: mapAction rest id f

/-- `addAction`: no-op when the id exists; otherwise store the action as
`pending/executed=false` with a fresh (un-aborted) signal and schedule the
transition to `running` on the current tail. -/
def addAction (r : Runner) (d : ActionCallbackData) : Runner :=
  match lookupAction r.actions d.actionId with
  | some _ => r
  | none =>
    { r with
      actions := r.actions ++
        [(d.actionId, ⟨d.action, "pending", false, false, none⟩)],
      updates := r.updates ++ [(r.chain.length, d.actionId)] }

/-- The `abort` closure stored with each action: trigger the controller
and set the status to `aborted`. -/
def abortAction (r : Runner) (id : String) : Runner :=
  let acts := mapAction r.actions id
    (fun a => { a with signalAborted := true, status := "aborted" })
  { r with actions := acts }

/-- `runAction`: an unknown id hits `unreachable` (which throws inside the
async function, leaving the runner untouched); an already-executed action
returns silently; otherwise merge the submitted payload, set
`executed := true`, and append `#executeAction(actionId)` to the chain. -/
def runAction (r : Runner) (d : ActionCallbackData) : Runner :=
  match lookupAction r.actions d.actionId with
  | none => r
  | some a =>
    if a.executed then r
    else
      { r with
        actions := mapAction r.actions d.actionId
          (fun a0 => { a0 with action := d.action, executed := true }),
        chain := r.chain ++ [d.actionId] }

/-- Perform one awaited sandbox call: record it in the trace, bump the
counter, and either return the resolved value or propagate the
rejection. -/
def sbCall (sb : Sandbox) (r : Runner) (c : SbCall) :
    Runner × Except String Bool :=
  let res := sb.respond r.callCount c
  let r1 := { r with
    trace := r.trace ++ [TraceEv.callEv r.callCount c],
    callCount := r.callCount + 1 }
  match res with
  | SbResult.ok v => (r1, Except.ok v)
  | SbResult.thrown m => (r1, Except.error m)

/-- The parent-directory loop of `#runFileAction`: for every path part but
the last, extend `currentPath` and `await makeDirectory` when it starts
with "/home/user" (the result is not checked; a rejection propagates). -/
def mkdirLoop (sb : Sandbox) (r : Runner) (currentPath : String) :
    List String → Runner × Except String Unit
  | [] => (r, Except.ok ())
  | p :: rest =>
    match rest with
    | [] => (r, Except.ok ())
    | _ :: _ =>
      if strStartsWith (currentPath ++ "/" ++ p) "/home/user" then
        match sbCall sb r (SbCall.mkdir (currentPath ++ "/" ++ p)) with
        | (r1, Except.ok _) => mkdirLoop sb r1 (currentPath ++ "/" ++ p) rest
        | (r1, Except.error m) => (r1, Except.error m)
      else mkdirLoop sb r (currentPath ++ "/" ++ p) rest

/-- Sandbox-side normalization of `#runFileAction` and
`syncMissingFiles`. -/
def normalizeRemote (filePath : String) : String :=
  if strStartsWith filePath "/home/user/" then filePath
  else "/home/user/" ++ stripLeadingSlash filePath

/-- `#runFileAction`: when the sandbox reports ready, create the parent
directories and `await writeFile` (a `false` result is only logged); then
add the file to the local store.  A rejected sandbox call propagates out of
the try block before the local write (the catch logs and rethrows). -/
def runFileActionM (sb : Sandbox) (r : Runner) (filePath content : String) :
    Runner × Except String Unit :=
  let step : Runner × Except String Unit :=
    if sb.ready then
      let normalizedPath := normalizeRemote filePath
      let pathParts := (splitOnChar '/' normalizedPath).filter (fun s => s ≠ "")
      match mkdirLoop sb r "" pathParts with
      | (r1, Except.ok _) =>
        match sbCall sb r1 (SbCall.write normalizedPath content) with
        | (r2, Except.ok _) => (r2, Except.ok ())
        | (r2, Except.error m) => (r2, Except.error m)
      | (r1, Except.error m) => (r1, Except.error m)
    else (r, Except.ok ())
  match step with
  | (r1, Except.ok _) =>
    ({ r1 with fs := r1.fs.addFile filePath content }, Except.ok ())
  | (r1, Except.error m) => (r1, Except.error m)

/-- `#runShellAction`: `await runCommand` when ready, else only log. -/
def runShellActionM (sb : Sandbox) (r : Runner) (content : String) :
    Runner × Except String Unit :=
  if sb.ready then
    match sbCall sb r (SbCall.runCmd content) with
    | (r1, Except.ok _) => (r1, Except.ok ())
    | (r1, Except.error m) => (r1, Except.error m)
  else (r, Except.ok ())

/-- The `this.#updateAction(actionId, { status: 'running' })` at the top of
`#executeAction`, together with the begin trace event. -/
def beginExec (r : Runner) (id : String) : Runner :=
  let acts := mapAction r.actions id (fun a0 => { a0 with status := "running" })
  { r with actions := acts, trace := r.trace ++ [TraceEv.beginEv id] }

/-- The success epilogue of `#executeAction`: store the terminal status
(`aborted` or `complete`). -/
def finishOk (r : Runner) (id st : String) : Runner :=
  let acts := mapAction r.actions id (fun a0 => { a0 with status := st })
  { r with actions := acts, trace := r.trace ++ [TraceEv.finishEv id st] }

/-- The catch branch of `#executeAction`: store `failed` with the generic
error message (the rethrown error is swallowed by the chain's catch). -/
def finishFailed (r : Runner) (id : String) : Runner :=
  let acts := mapAction r.actions id
    (fun a0 => { a0 with status := "failed", error := some "Action failed" })
  { r with actions := acts, trace := r.trace ++ [TraceEv.finishEv id "failed"] }

/-- `#executeAction`: set `running`, dispatch on the variant, then set the
terminal status — `aborted` when the signal fired, else `complete`; on a
thrown error set `failed` with the generic message and rethrow (the
chain's catch swallows it). -/
def executeAction (sb : Sandbox) (r : Runner) (id : String) : Runner :=
  match lookupAction r.actions id with
  | none => r
  | some a =>
    let body :=
      match a.action with
      | BoltAction.shell c => runShellActionM sb (beginExec r id) c
      | BoltAction.file p c => runFileActionM sb (beginExec r id) p c
    match body with
    | (r2, Except.ok _) =>
      finishOk r2 id (if a.signalAborted then "aborted" else "complete")
    | (r2, Except.error _) => finishFailed r2 id

/-- Fire the status-visibility updates scheduled (by `addAction`) on the
tail promise that settles after `i` chained executions: each sets the
target action to `running`. -/
def applyUpdatesList (i : Nat) : List (Nat × String) → Runner → Runner
  | [], r => r
  | u :: us, r =>
    applyUpdatesList i us
      (if u.1 = i then
        let acts := mapAction r.actions u.2
          (fun a0 => { a0 with status := "running" })
        { r with actions := acts }
      else r)

/-- Fire the scheduled updates attached to the tail of length `i`, in
scheduling order. -/
def applyUpdatesAt (r : Runner) (i : Nat) : Runner :=
  applyUpdatesList i r.updates r

/-- Settle the chain: before the `i`-th chained execution fires, the
continuations attached to the tail of length `i` run. -/
def chainGo (sb : Sandbox) : Runner → List String → Nat → Runner
  | r, [], _ => r
  | r, id :: rest, i =>
    chainGo sb (executeAction sb (applyUpdatesAt r i) id) rest (i + 1)

/-- Let the whole continuation chain (and the visibility updates attached
to its final tail) settle. -/
def runChain (sb : Sandbox) (r : Runner) : Runner :=
  applyUpdatesAt (chainGo sb r r.chain 0) r.chain.length

/-- One producer event: a `register` (`addAction`) or a `submit`
(`runAction`) delivery. -/
inductive RunnerEv where
  | add (d : ActionCallbackData)
  | submit (d : ActionCallbackData)
deriving DecidableEq, Repr

/-- Apply a sequence of producer events to the runner.  (Interleaving the
events with the settling of the chain gives the same final state: both
`addAction` and `runAction` read only the `actions` map's registration and
`executed` facts, which executions never change.) -/
def applyEvents (r : Runner) : List RunnerEv → Runner
  | [] => r
  | RunnerEv.add d :: evs => applyEvents (addAction r d) evs
  | RunnerEv.submit d :: evs => applyEvents (runAction r d) evs

/-! ## Reconciler

`WorkbenchStore.syncMissingFiles` (src/app/lib/stores/workbench.ts).  It
reads the turn's recorded actions, filters to file actions, snapshots the
current file map once, and repairs every file action whose normalized path
is not a File entry in that snapshot.  Sandbox calls reuse the `Sandbox`
oracle with a running call counter; a rejected sandbox call is caught per
file (logged, not counted in `synced`, loop continues). -/

/-- The `{synced, total, missing}` result record. -/
structure SyncResult where
  synced : Nat
  total : Nat
  missing : List String
deriving DecidableEq, Repr

/-- The parent-directory loop of `syncMissingFiles` (same shape as the
runner's, but threading only the call counter). -/
def syncMkdirLoop (sb : Sandbox) (n : Nat) (currentPath : String) :
    List String → Nat × Except String Unit
  | [] => (n, Except.ok ())
  | p :: rest =>
    match rest with
    | [] => (n, Except.ok ())
    | _ :: _ =>
      if strStartsWith (currentPath ++ "/" ++ p) "/home/user" then
        match sb.respond n (SbCall.mkdir (currentPath ++ "/" ++ p)) with
        | SbResult.ok _ => syncMkdirLoop sb (n + 1) (currentPath ++ "/" ++ p) rest
        | SbResult.thrown m => (n + 1, Except.error m)
      else syncMkdirLoop sb n (currentPath ++ "/" ++ p) rest

/-- The repair loop over the turn's file actions.  `snapshot` is the file
map read once before the loop; accumulators: the store, the sandbox call
counter, `syncedCount` and `missingFiles`. -/
def syncGo (sb : Sandbox) (snapshot : List (String × Dirent)) :
    List ActionState → FilesStore → Nat → Nat → List String →
      FilesStore × Nat × Nat × List String
  | [], fs, n, synced, missing => (fs, n, synced, missing)
  | a :: rest, fs, n, synced, missing =>
    match a.action with
    | BoltAction.shell _ => syncGo sb snapshot rest fs n synced missing
    | BoltAction.file filePath content =>
      let normalizedPath := normalizeLocal filePath
      match getEntry snapshot normalizedPath with
      | some (Dirent.file _ _) => syncGo sb snapshot rest fs n synced missing
      | _ =>
        let missing1 := missing ++ [filePath]
        let fs1 := fs.addFile filePath content
        if sb.ready then
          let e2bPath := normalizeRemote filePath
          let parts := (splitOnChar '/' e2bPath).filter (fun s => s ≠ "")
          match syncMkdirLoop sb n "" parts with
          | (n1, Except.ok _) =>
            match sb.respond n1 (SbCall.write e2bPath content) with
            | SbResult.ok _ =>
              syncGo sb snapshot rest fs1 (n1 + 1) (synced + 1) missing1
            | SbResult.thrown _ =>
              syncGo sb snapshot rest fs1 (n1 + 1) synced missing1
          | (n1, Except.error _) => syncGo sb snapshot rest fs1 n1 synced missing1
        else syncGo sb snapshot rest fs1 n (synced + 1) missing1

/-- `syncMissingFiles` on a turn whose runner recorded `actions` (as the
values of the runner's `actions` map): returns the updated store, the
result record and the new call counter. -/
def syncMissingFiles (sb : Sandbox) (fs : FilesStore) (actions : List ActionState)
    (n : Nat) : FilesStore × SyncResult × Nat :=
  let fileActions := actions.filter (fun a =>
    match a.action with
    | BoltAction.file _ _ => true
    | BoltAction.shell _ => false)
  let snapshot := fs.files
  match syncGo sb snapshot fileActions fs n 0 [] with
  | (fs1, n1, synced, missing) => (fs1, ⟨synced, fileActions.length, missing⟩, n1)

/-! ## Specification-side definitions, instrumentation observers and
concrete scenarios used by the claim theorems -/

/-- The action id is known to the runner. -/
def isRegisteredB (r : Runner) (id : String) : Bool :=
  (lookupAction r.actions id).isSome

/-- The stored `executed` flag. -/
def isExecutedB (r : Runner) (id : String) : Bool :=
  match lookupAction r.actions id with
  | some a => a.executed
  | none => false

/-- Projection of a trace to its begin/finish events: `(true, id)` for the
begin of `id`'s execution, `(false, id)` for its finish. -/
def bfIds : List TraceEv → List (Bool × String)
  | [] => []
  | TraceEv.beginEv id :: rest => (true, id) :: bfIds rest
  | TraceEv.finishEv id _ :: rest => (false, id) :: bfIds rest
  | TraceEv.callEv _ _ :: rest => bfIds rest

/-- The begin/finish pattern of a fully serialized execution of `l`. -/
def bfBlocks (l : List String) : List (Bool × String) :=
  l.flatMap (fun id => [(true, id), (false, id)])

/-- Everything a sandbox-call body leaves untouched: the actions map, the
chain, the scheduled updates, and the begin/finish projection of the
trace. -/
def sameSkeleton (r r1 : Runner) : Prop :=
  r1.actions = r.actions ∧ r1.chain = r.chain ∧ r1.updates = r.updates ∧
    bfIds r1.trace = bfIds r.trace

/-- The fields of an action state that a status-visibility update can
never change. -/
def core (a : ActionState) : BoltAction × Bool × Bool × Option String :=
  (a.action, a.executed, a.signalAborted, a.error)

/-- The post-condition of interest for `executeAction` on a registered
action `a`. -/
def ExecPost (r : Runner) (id : String) (a : ActionState) (result : Runner) : Prop :=
  result.chain = r.chain ∧
  result.updates = r.updates ∧
  bfIds result.trace = bfIds r.trace ++ [(true, id), (false, id)] ∧
  (∀ s, ¬ s = id → lookupAction result.actions s = lookupAction r.actions s) ∧
  (∃ a1, lookupAction result.actions id = some a1 ∧
    (a1.status = "complete" ∨ a1.status = "aborted" ∨ a1.status = "failed") ∧
    (¬ a1.status = "failed" → a1.error = a.error) ∧
    a1.executed = a.executed)

/-- Invariant maintained by `addAction` / `runAction` over the life of a
runner, before the chain settles: every chained id is registered, ids are
chained at most once, a chained id has `executed = true`, every scheduled
update's position is within the chain, an update's target that is chained
sits at or after the update's position, and no action carries an error
yet. -/
structure RunnerInv (r : Runner) : Prop where
  regOfChain : ∀ id ∈ r.chain, (lookupAction r.actions id).isSome = true
  nodup : r.chain.Nodup
  execOfChain : ∀ id ∈ r.chain, isExecutedB r id = true
  updBound : ∀ u ∈ r.updates, u.1 ≤ r.chain.length
  updOrder : ∀ u ∈ r.updates, u.2 ∈ r.chain → u.2 ∈ r.chain.drop u.1
  errNone : ∀ id a, lookupAction r.actions id = some a → a.error = none

/-- Specification-side description of the ids a sequence of producer events
submits effectively, in order: a `submit` is effective when its id is
registered and not yet executed; `regs` and `execs` track those two facts
by membership. -/
def expectedOrder : List String → List String → List RunnerEv → List String
  | _, _, [] => []
  | regs, execs, RunnerEv.add d :: evs =>
    expectedOrder (d.actionId :: regs) execs evs
  | regs, execs, RunnerEv.submit d :: evs =>
    if d.actionId ∈ regs ∧ ¬ d.actionId ∈ execs then
      d.actionId :: expectedOrder regs (d.actionId :: execs) evs
    else expectedOrder regs execs evs

/-- The spec's three-action test scenario: a sandbox that is ready and whose
second call's promise rejects. -/
def sbBoom : Sandbox :=
  ⟨true, fun n _ => if n = 1 then SbResult.thrown "boom" else SbResult.ok true⟩

/-- Three shell actions registered and submitted in order. -/
def evsThree : List RunnerEv :=
  [RunnerEv.add ⟨"a1", BoltAction.shell "c1"⟩,
    RunnerEv.add ⟨"a2", BoltAction.shell "c2"⟩,
    RunnerEv.add ⟨"a3", BoltAction.shell "c3"⟩,
    RunnerEv.submit ⟨"a1", BoltAction.shell "c1"⟩,
    RunnerEv.submit ⟨"a2", BoltAction.shell "c2"⟩,
    RunnerEv.submit ⟨"a3", BoltAction.shell "c3"⟩]

/-- The settled runner of that scenario. -/
def rrThree : Runner :=
  runChain sbBoom (applyEvents (initialRunner emptyFilesStore) evsThree)

/-- A ready sandbox that rejects every write call; the file action on it. -/
def sbThrowWrite : Sandbox :=
  ⟨true, fun _ c =>
    match c with
    | SbCall.write _ _ => SbResult.thrown "boom"
    | _ => SbResult.ok true⟩

def evsOneFile : List RunnerEv :=
  [RunnerEv.add ⟨"f1", BoltAction.file "/a.txt" "hi"⟩,
    RunnerEv.submit ⟨"f1", BoltAction.file "/a.txt" "hi"⟩]

def rrOneFile : Runner :=
  runChain sbThrowWrite (applyEvents (initialRunner emptyFilesStore) evsOneFile)

/-- Callbacks whose write implementation always resolves `true`. -/
def cbsAllOk : SandboxCallbacks :=
  ⟨fun _ _ => Except.ok true, fun _ => Except.ok true, fun _ => Except.ok (),
    fun _ _ => Except.ok (), Except.ok (), none⟩

/-- A store that queued one `writeFile` with an empty path while
connecting. -/
def stEmptyPathQueued : E2BStore :=
  (e2bWriteFile { initialE2B with
    state := { initialConn with isConnecting := true } } "" "c").1

/-- A store that queued two `writeFile` operations while connecting. -/
def stTwoQueued : E2BStore :=
  (e2bWriteFile (e2bWriteFile { initialE2B with
    state := { initialConn with isConnecting := true } } "/x" "1").1 "/y" "2").1

/-- The C8 scenario: one recorded file action for "/a.txt" never reflected
in the store; the sandbox is not ready. -/
def actsOneFile : List ActionState :=
  [⟨BoltAction.file "/a.txt" "hi", "complete", true, false, none⟩]

def sbNotReady : Sandbox := ⟨false, fun _ _ => SbResult.ok true⟩

/-! ## Helper lemmas: the actions association list -/

theorem lookupAction_mapAction (l : List (String × ActionState)) (id s : String)
    (f : ActionState → ActionState) :
    lookupAction (mapAction l id f) s =
      if s = id then (lookupAction l s).map f else lookupAction l s := by
  induction l with
  | nil => by_cases h : s = id <;> simp [lookupAction, mapAction, h]
  | cons e rest ih =>
    by_cases hk : e.1 = id
    · by_cases hs : e.1 = s
      · have hsid : s = id := hs ▸ hk
        simp [lookupAction, mapAction, hk, hs, hsid]
      · have hsid : ¬ s = id := fun h => hs (hk.trans h.symm)
        have hids : ¬ id = s := fun h => hs (hk.trans h)
        simp [lookupAction, mapAction, hk, hs, hsid, hids]
    · by_cases hs : e.1 = s
      · have hsid : ¬ s = id := fun h => hk (hs.trans h)
        simp [lookupAction, mapAction, hk, hs, hsid]
      · simp [lookupAction, mapAction, hk, hs, ih]

theorem lookupAction_append (l m : List (String × ActionState)) (s : String) :
    lookupAction (l ++ m) s =
      match lookupAction l s with
      | some x => some x
      | none => lookupAction m s := by
  induction l with
  | nil => simp [lookupAction]
  | cons e rest ih =>
    by_cases hs : e.1 = s
    · simp [lookupAction, hs]
    · simp [lookupAction, hs, ih]

/-! ## Helper lemmas: observers and trace projections -/

theorem bfIds_append (s t : List TraceEv) :
    bfIds (s ++ t) = bfIds s ++ bfIds t := by
  induction s with
  | nil => rfl
  | cons ev rest ih => cases ev <;> simp [bfIds, ih]

theorem sameSkeleton_refl (r : Runner) : sameSkeleton r r :=
  ⟨rfl, rfl, rfl, rfl⟩

theorem sameSkeleton_trans {r r1 r2 : Runner}
    (h1 : sameSkeleton r r1) (h2 : sameSkeleton r1 r2) : sameSkeleton r r2 :=
  ⟨h2.1.trans h1.1, h2.2.1.trans h1.2.1, h2.2.2.1.trans h1.2.2.1,
    h2.2.2.2.trans h1.2.2.2⟩

theorem sbCall_skeleton (sb : Sandbox) (r : Runner) (c : SbCall) :
    sameSkeleton r (sbCall sb r c).1 := by
  unfold sbCall
  cases sb.respond r.callCount c <;>
    exact ⟨rfl, rfl, rfl, by simp [bfIds_append, bfIds]⟩

theorem mkdirLoop_skeleton (sb : Sandbox) :
    ∀ (parts : List String) (r : Runner) (cp : String),
      sameSkeleton r (mkdirLoop sb r cp parts).1 := by
  intro parts
  induction parts with
  | nil => intro r cp; exact sameSkeleton_refl r
  | cons p rest ih =>
    intro r cp
    cases rest with
    | nil => exact sameSkeleton_refl r
    | cons q rest2 =>
      simp only [mkdirLoop]
      by_cases hsw : strStartsWith (cp ++ "/" ++ p) "/home/user" = true
      · rw [if_pos hsw]
        have hcall := sbCall_skeleton sb r (SbCall.mkdir (cp ++ "/" ++ p))
        cases hres : sbCall sb r (SbCall.mkdir (cp ++ "/" ++ p)) with
        | mk r1 exc =>
          rw [hres] at hcall
          cases exc with
          | ok v => exact sameSkeleton_trans hcall (ih r1 (cp ++ "/" ++ p))
          | error m => exact hcall
      · rw [if_neg hsw]
        exact ih r (cp ++ "/" ++ p)

theorem runFileActionM_skeleton (sb : Sandbox) (r : Runner)
    (filePath content : String) :
    sameSkeleton r (runFileActionM sb r filePath content).1 := by
  simp only [runFileActionM]
  by_cases hr : sb.ready
  · rw [if_pos hr]
    have hmk := mkdirLoop_skeleton sb
      ((splitOnChar '/' (normalizeRemote filePath)).filter (fun s => s ≠ "")) r ""
    cases hres : mkdirLoop sb r ""
        ((splitOnChar '/' (normalizeRemote filePath)).filter (fun s => s ≠ "")) with
    | mk r1 exc =>
      rw [hres] at hmk
      cases exc with
      | ok v =>
        dsimp only
        have hw := sbCall_skeleton sb r1 (SbCall.write (normalizeRemote filePath) content)
        cases hres2 : sbCall sb r1 (SbCall.write (normalizeRemote filePath) content) with
        | mk r2 exc2 =>
          rw [hres2] at hw
          cases exc2 with
          | ok v2 => exact sameSkeleton_trans hmk hw
          | error m => exact sameSkeleton_trans hmk hw
      | error m => exact hmk
  · rw [if_neg hr]
    exact sameSkeleton_refl r

theorem runShellActionM_skeleton (sb : Sandbox) (r : Runner) (content : String) :
    sameSkeleton r (runShellActionM sb r content).1 := by
  simp only [runShellActionM]
  by_cases hr : sb.ready
  · rw [if_pos hr]
    have hw := sbCall_skeleton sb r (SbCall.runCmd content)
    cases hres : sbCall sb r (SbCall.runCmd content) with
    | mk r1 exc =>
      rw [hres] at hw
      cases exc with
      | ok v => exact hw
      | error m => exact hw
  · rw [if_neg hr]
    exact sameSkeleton_refl r

theorem executeAction_none (sb : Sandbox) (r : Runner) (id : String)
    (hl : lookupAction r.actions id = none) : executeAction sb r id = r := by
  simp [executeAction, hl]

theorem execEpilogue_spec (r : Runner) (id : String)
    (a : ActionState) (hl : lookupAction r.actions id = some a)
    (r2 : Runner) (exc : Except String Unit)
    (hsk : sameSkeleton (beginExec r id) r2) :
    ExecPost r id a
      (match exc with
        | Except.ok _ =>
          finishOk r2 id (if a.signalAborted then "aborted" else "complete")
        | Except.error _ => finishFailed r2 id) := by
  obtain ⟨hacts, hch, hupd, htr⟩ := hsk
  have hbase : bfIds (beginExec r id).trace = bfIds r.trace ++ [(true, id)] := by
    simp [beginExec, bfIds_append, bfIds]
  have hlook2 : lookupAction r2.actions id = some { a with status := "running" } := by
    rw [hacts]
    simp [beginExec, lookupAction_mapAction, hl]
  have hlookne : ∀ s, ¬ s = id → lookupAction r2.actions s = lookupAction r.actions s := by
    intro s hs
    rw [hacts]
    simp [beginExec, lookupAction_mapAction, hs]
  cases exc with
  | ok v =>
    refine ⟨?_, ?_, ?_, ?_, ?_⟩
    · simpa [finishOk, beginExec] using hch
    · simpa [finishOk, beginExec] using hupd
    · rw [show (finishOk r2 id (if a.signalAborted then "aborted" else "complete")).trace
          = r2.trace ++ [TraceEv.finishEv id (if a.signalAborted then "aborted" else "complete")] from rfl,
        bfIds_append, htr, hbase]
      simp [bfIds]
    · intro s hs
      rw [show (finishOk r2 id (if a.signalAborted then "aborted" else "complete")).actions
          = mapAction r2.actions id
            (fun a0 => { a0 with status := (if a.signalAborted then "aborted" else "complete") }) from rfl,
        lookupAction_mapAction, if_neg hs]
      exact hlookne s hs
    · refine ⟨{ a with status := (if a.signalAborted then "aborted" else "complete") }, ?_, ?_, ?_, ?_⟩
      · rw [show (finishOk r2 id (if a.signalAborted then "aborted" else "complete")).actions
            = mapAction r2.actions id
              (fun a0 => { a0 with status := (if a.signalAborted then "aborted" else "complete") }) from rfl,
          lookupAction_mapAction, if_pos rfl, hlook2]
        rfl
      · by_cases hab : a.signalAborted <;> simp [hab]
      · intro _; rfl
      · rfl
  | error m =>
    refine ⟨?_, ?_, ?_, ?_, ?_⟩
    · simpa [finishFailed, beginExec] using hch
    · simpa [finishFailed, beginExec] using hupd
    · rw [show (finishFailed r2 id).trace
          = r2.trace ++ [TraceEv.finishEv id "failed"] from rfl,
        bfIds_append, htr, hbase]
      simp [bfIds]
    · intro s hs
      rw [show (finishFailed r2 id).actions
          = mapAction r2.actions id
            (fun a0 => { a0 with status := "failed", error := some "Action failed" }) from rfl,
        lookupAction_mapAction, if_neg hs]
      exact hlookne s hs
    · refine ⟨{ a with status := "failed", error := some "Action failed" }, ?_, ?_, ?_, ?_⟩
      · rw [show (finishFailed r2 id).actions
            = mapAction r2.actions id
              (fun a0 => { a0 with status := "failed", error := some "Action failed" }) from rfl,
          lookupAction_mapAction, if_pos rfl, hlook2]
        rfl
      · right; right; rfl
      · intro hc; exact absurd rfl hc
      · rfl

theorem executeAction_spec (sb : Sandbox) (r : Runner) (id : String)
    (a : ActionState) (hl : lookupAction r.actions id = some a) :
    ExecPost r id a (executeAction sb r id) := by
  have hmain : executeAction sb r id =
      match (match a.action with
        | BoltAction.shell c => runShellActionM sb (beginExec r id) c
        | BoltAction.file p c => runFileActionM sb (beginExec r id) p c) with
      | (r2, Except.ok _) =>
        finishOk r2 id (if a.signalAborted then "aborted" else "complete")
      | (r2, Except.error _) => finishFailed r2 id := by
    simp only [executeAction, hl]
  rw [hmain]
  cases hact : a.action with
  | shell c =>
    dsimp only
    cases hres : runShellActionM sb (beginExec r id) c with
    | mk r2 exc =>
      have hsk := runShellActionM_skeleton sb (beginExec r id) c
      rw [hres] at hsk
      cases exc with
      | ok v => exact execEpilogue_spec r id a hl r2 (Except.ok v) hsk
      | error m => exact execEpilogue_spec r id a hl r2 (Except.error m) hsk
  | file p c =>
    dsimp only
    cases hres : runFileActionM sb (beginExec r id) p c with
    | mk r2 exc =>
      have hsk := runFileActionM_skeleton sb (beginExec r id) p c
      rw [hres] at hsk
      cases exc with
      | ok v => exact execEpilogue_spec r id a hl r2 (Except.ok v) hsk
      | error m => exact execEpilogue_spec r id a hl r2 (Except.error m) hsk

theorem executeAction_chain_updates (sb : Sandbox) (r : Runner) (id : String) :
    (executeAction sb r id).chain = r.chain ∧
      (executeAction sb r id).updates = r.updates := by
  cases hl : lookupAction r.actions id with
  | none => rw [executeAction_none sb r id hl]; exact ⟨rfl, rfl⟩
  | some a =>
    have h := executeAction_spec sb r id a hl
    exact ⟨h.1, h.2.1⟩

theorem executeAction_keys (sb : Sandbox) (r : Runner) (id s : String) :
    (lookupAction (executeAction sb r id).actions s).isSome =
      (lookupAction r.actions s).isSome := by
  cases hl : lookupAction r.actions id with
  | none => rw [executeAction_none sb r id hl]
  | some a =>
    have h := executeAction_spec sb r id a hl
    by_cases hs : s = id
    · subst hs
      obtain ⟨a1, ha1, -⟩ := h.2.2.2.2
      rw [ha1, hl]
      rfl
    · rw [h.2.2.2.1 s hs]

theorem executeAction_core_ne (sb : Sandbox) (r : Runner) (id s : String)
    (hs : ¬ s = id) :
    lookupAction (executeAction sb r id).actions s = lookupAction r.actions s := by
  cases hl : lookupAction r.actions id with
  | none => rw [executeAction_none sb r id hl]
  | some a => exact (executeAction_spec sb r id a hl).2.2.2.1 s hs

theorem applyUpdatesList_fields (i : Nat) :
    ∀ (us : List (Nat × String)) (r : Runner),
      (applyUpdatesList i us r).chain = r.chain ∧
      (applyUpdatesList i us r).updates = r.updates ∧
      (applyUpdatesList i us r).trace = r.trace ∧
      (applyUpdatesList i us r).fs = r.fs ∧
      (applyUpdatesList i us r).callCount = r.callCount := by
  intro us
  induction us with
  | nil => intro r; exact ⟨rfl, rfl, rfl, rfl, rfl⟩
  | cons u rest ih =>
    intro r
    show (applyUpdatesList i rest _).chain = r.chain ∧ _
    by_cases hu : u.1 = i
    · simp only [applyUpdatesList, if_pos hu]
      exact ih _
    · simp only [applyUpdatesList, if_neg hu]
      exact ih r

theorem applyUpdatesList_core (i : Nat) :
    ∀ (us : List (Nat × String)) (r : Runner) (s : String),
      (lookupAction (applyUpdatesList i us r).actions s).map core =
        (lookupAction r.actions s).map core := by
  intro us
  induction us with
  | nil => intro r s; rfl
  | cons u rest ih =>
    intro r s
    by_cases hu : u.1 = i
    · simp only [applyUpdatesList, if_pos hu]
      rw [ih]
      by_cases hs : s = u.2
      · rw [lookupAction_mapAction, if_pos hs]
        cases lookupAction r.actions s <;> rfl
      · rw [lookupAction_mapAction, if_neg hs]
    · simp only [applyUpdatesList, if_neg hu]
      exact ih r s

theorem applyUpdatesList_keys (i : Nat) (us : List (Nat × String)) (r : Runner)
    (s : String) :
    (lookupAction (applyUpdatesList i us r).actions s).isSome =
      (lookupAction r.actions s).isSome := by
  have h := applyUpdatesList_core i us r s
  have h1 : ((lookupAction (applyUpdatesList i us r).actions s).map core).isSome =
      ((lookupAction r.actions s).map core).isSome := by rw [h]
  simpa using h1

theorem applyUpdatesList_untouched (i : Nat) :
    ∀ (us : List (Nat × String)) (r : Runner) (s : String),
      (∀ u ∈ us, ¬ (u.1 = i ∧ u.2 = s)) →
      lookupAction (applyUpdatesList i us r).actions s = lookupAction r.actions s := by
  intro us
  induction us with
  | nil => intro r s _; rfl
  | cons u rest ih =>
    intro r s hno
    by_cases hu : u.1 = i
    · simp only [applyUpdatesList, if_pos hu]
      rw [ih _ s (fun v hv => hno v (List.mem_cons_of_mem u hv)),
        lookupAction_mapAction]
      have hs : ¬ s = u.2 := fun hs =>
        hno u (List.mem_cons_self u rest) ⟨hu, hs.symm⟩
      rw [if_neg hs]
    · simp only [applyUpdatesList, if_neg hu]
      exact ih r s (fun v hv => hno v (List.mem_cons_of_mem u hv))

theorem applyUpdatesAt_fields (r : Runner) (i : Nat) :
    (applyUpdatesAt r i).chain = r.chain ∧
    (applyUpdatesAt r i).updates = r.updates ∧
    (applyUpdatesAt r i).trace = r.trace ∧
    (applyUpdatesAt r i).fs = r.fs ∧
    (applyUpdatesAt r i).callCount = r.callCount :=
  applyUpdatesList_fields i r.updates r

theorem applyUpdatesAt_keys (r : Runner) (i : Nat) (s : String) :
    (lookupAction (applyUpdatesAt r i).actions s).isSome =
      (lookupAction r.actions s).isSome :=
  applyUpdatesList_keys i r.updates r s

theorem applyUpdatesAt_untouched (r : Runner) (i : Nat) (s : String)
    (h : ∀ u ∈ r.updates, ¬ (u.1 = i ∧ u.2 = s)) :
    lookupAction (applyUpdatesAt r i).actions s = lookupAction r.actions s :=
  applyUpdatesList_untouched i r.updates r s h

theorem chainGo_chain_updates (sb : Sandbox) :
    ∀ (rest : List String) (r : Runner) (i : Nat),
      (chainGo sb r rest i).chain = r.chain ∧
      (chainGo sb r rest i).updates = r.updates := by
  intro rest
  induction rest with
  | nil => intro r i; exact ⟨rfl, rfl⟩
  | cons id rest2 ih =>
    intro r i
    simp only [chainGo]
    have h1 := applyUpdatesAt_fields r i
    have h2 := executeAction_chain_updates sb (applyUpdatesAt r i) id
    have h3 := ih (executeAction sb (applyUpdatesAt r i) id) (i + 1)
    refine ⟨?_, ?_⟩
    · rw [h3.1, h2.1]
      exact h1.1
    · rw [h3.2, h2.2]
      exact h1.2.1

theorem chainGo_keys (sb : Sandbox) :
    ∀ (rest : List String) (r : Runner) (i : Nat) (s : String),
      (lookupAction (chainGo sb r rest i).actions s).isSome =
        (lookupAction r.actions s).isSome := by
  intro rest
  induction rest with
  | nil => intro r i s; rfl
  | cons id rest2 ih =>
    intro r i s
    simp only [chainGo]
    rw [ih, executeAction_keys, applyUpdatesAt_keys]

theorem chainGo_bf (sb : Sandbox) :
    ∀ (rest : List String) (r : Runner) (i : Nat),
      (∀ id ∈ rest, (lookupAction r.actions id).isSome = true) →
      bfIds (chainGo sb r rest i).trace = bfIds r.trace ++ bfBlocks rest := by
  intro rest
  induction rest with
  | nil => intro r i _; simp [chainGo, bfBlocks]
  | cons id rest2 ih =>
    intro r i hreg
    simp only [chainGo]
    have hkey : (lookupAction (applyUpdatesAt r i).actions id).isSome = true := by
      rw [applyUpdatesAt_keys]
      exact hreg id (List.mem_cons_self id rest2)
    obtain ⟨a, ha⟩ := Option.isSome_iff_exists.mp hkey
    have hspec := executeAction_spec sb (applyUpdatesAt r i) id a ha
    have hrest : ∀ j ∈ rest2,
        (lookupAction (executeAction sb (applyUpdatesAt r i) id).actions j).isSome
          = true := by
      intro j hj
      rw [executeAction_keys, applyUpdatesAt_keys]
      exact hreg j (List.mem_cons_of_mem id hj)
    rw [ih _ (i + 1) hrest, hspec.2.2.1,
      (applyUpdatesAt_fields r i).2.2.1]
    simp [bfBlocks]

theorem chainGo_preserve (sb : Sandbox) :
    ∀ (rest : List String) (r : Runner) (i : Nat) (id : String),
      id ∉ rest →
      (∀ u ∈ r.updates, u.2 = id → u.1 < i) →
      lookupAction (chainGo sb r rest i).actions id = lookupAction r.actions id := by
  intro rest
  induction rest with
  | nil => intro r i id _ _; rfl
  | cons j rest2 ih =>
    intro r i id hni hupd
    simp only [chainGo]
    have hji : ¬ id = j := fun h => hni (h ▸ List.mem_cons_self j rest2)
    have hupd2 : ∀ u ∈ (executeAction sb (applyUpdatesAt r i) j).updates,
        u.2 = id → u.1 < i + 1 := by
      intro u hu h2
      rw [(executeAction_chain_updates sb (applyUpdatesAt r i) j).2,
        (applyUpdatesAt_fields r i).2.1] at hu
      exact Nat.lt_succ_of_lt (hupd u hu h2)
    rw [ih _ (i + 1) id (fun h => hni (List.mem_cons_of_mem j h)) hupd2,
      executeAction_core_ne sb _ j id hji,
      applyUpdatesAt_untouched r i id
        (fun u hu hc => Nat.lt_irrefl i (hc.1 ▸ hupd u hu hc.2))]

/-! ## Helper lemmas: the event phase (registration and submission) -/

theorem runnerInv_initial (fs : FilesStore) : RunnerInv (initialRunner fs) := by
  refine ⟨?_, ?_, ?_, ?_, ?_, ?_⟩ <;> simp [initialRunner, lookupAction]

theorem addAction_of_some (r : Runner) (d : ActionCallbackData)
    (a : ActionState) (hl : lookupAction r.actions d.actionId = some a) :
    addAction r d = r := by
  simp [addAction, hl]

theorem runAction_of_none (r : Runner) (d : ActionCallbackData)
    (hl : lookupAction r.actions d.actionId = none) :
    runAction r d = r := by
  simp [runAction, hl]

theorem runAction_of_executed (r : Runner) (d : ActionCallbackData)
    (a : ActionState) (hl : lookupAction r.actions d.actionId = some a)
    (hex : a.executed = true) :
    runAction r d = r := by
  simp [runAction, hl, hex]

theorem runnerInv_add (r : Runner) (d : ActionCallbackData)
    (hinv : RunnerInv r) : RunnerInv (addAction r d) := by
  cases hl : lookupAction r.actions d.actionId with
  | some a => rw [addAction_of_some r d a hl]; exact hinv
  | none =>
    have hform : addAction r d =
        { r with
          actions := r.actions ++
            [(d.actionId, ⟨d.action, "pending", false, false, none⟩)],
          updates := r.updates ++ [(r.chain.length, d.actionId)] } := by
      simp [addAction, hl]
    rw [hform]
    have hlook : ∀ s, lookupAction (r.actions ++
        [(d.actionId, ⟨d.action, "pending", false, false, none⟩)]) s =
        match lookupAction r.actions s with
        | some x => some x
        | none =>
          if s = d.actionId
          then some ⟨d.action, "pending", false, false, none⟩ else none := by
      intro s
      rw [lookupAction_append]
      cases lookupAction r.actions s with
      | some x => rfl
      | none => simp [lookupAction, eq_comm]
    refine ⟨?_, hinv.nodup, ?_, ?_, ?_, ?_⟩
    · intro id hid
      rw [hlook id]
      have h := hinv.regOfChain id hid
      cases hx : lookupAction r.actions id with
      | some x => rfl
      | none => rw [hx] at h; simp at h
    · intro id hid
      have h := hinv.execOfChain id hid
      have hr := hinv.regOfChain id hid
      unfold isExecutedB at h ⊢
      rw [hlook id]
      cases hx : lookupAction r.actions id with
      | some x => rw [hx] at h; exact h
      | none => rw [hx] at hr; simp at hr
    · intro u hu
      rcases List.mem_append.mp hu with h | h
      · exact hinv.updBound u h
      · rcases List.mem_singleton.mp h with rfl
        exact Nat.le_refl _
    · intro u hu hmem
      rcases List.mem_append.mp hu with h | h
      · exact hinv.updOrder u h hmem
      · rcases List.mem_singleton.mp h with rfl
        exfalso
        have hr := hinv.regOfChain d.actionId hmem
        rw [hl] at hr
        simp at hr
    · intro id a ha
      rw [hlook id] at ha
      cases hx : lookupAction r.actions id with
      | some x =>
        rw [hx] at ha
        cases ha
        exact hinv.errNone id _ hx
      | none =>
        rw [hx] at ha
        by_cases hs : id = d.actionId
        · rw [if_pos hs] at ha
          cases ha
          rfl
        · rw [if_neg hs] at ha
          cases ha

theorem runnerInv_run (r : Runner) (d : ActionCallbackData)
    (hinv : RunnerInv r) : RunnerInv (runAction r d) := by
  cases hl : lookupAction r.actions d.actionId with
  | none => rw [runAction_of_none r d hl]; exact hinv
  | some a =>
    by_cases hex : a.executed = true
    · rw [runAction_of_executed r d a hl hex]; exact hinv
    · have hform : runAction r d =
          { r with
            actions := mapAction r.actions d.actionId
              (fun a0 => { a0 with action := d.action, executed := true }),
            chain := r.chain ++ [d.actionId] } := by
        simp [runAction, hl, hex]
      rw [hform]
      have hnotchain : d.actionId ∉ r.chain := by
        intro hc
        have h := hinv.execOfChain d.actionId hc
        unfold isExecutedB at h
        rw [hl] at h
        exact hex h
      refine ⟨?_, ?_, ?_, ?_, ?_, ?_⟩
      · intro id hid
        rw [lookupAction_mapAction]
        by_cases hs : id = d.actionId
        · rw [if_pos hs, hs, hl]; rfl
        · rw [if_neg hs]
          rcases List.mem_append.mp hid with h | h
          · exact hinv.regOfChain id h
          · exact absurd ((List.mem_singleton.mp h)) hs
      · rw [List.nodup_append]
        exact ⟨hinv.nodup, List.nodup_singleton _,
          fun x hx hx1 => hnotchain ((List.mem_singleton.mp hx1) ▸ hx)⟩
      · intro id hid
        unfold isExecutedB
        rw [lookupAction_mapAction]
        by_cases hs : id = d.actionId
        · rw [if_pos hs, hs, hl]; rfl
        · rw [if_neg hs]
          rcases List.mem_append.mp hid with h | h
          · have h2 := hinv.execOfChain id h
            unfold isExecutedB at h2
            exact h2
          · exact absurd ((List.mem_singleton.mp h)) hs
      · intro u hu
        calc u.1 ≤ r.chain.length := hinv.updBound u hu
        _ ≤ (r.chain ++ [d.actionId]).length := by simp
      · intro u hu hmem
        have hb := hinv.updBound u hu
        rw [List.drop_append_of_le_length hb]
        rcases List.mem_append.mp hmem with h | h
        · exact List.mem_append.mpr (Or.inl (hinv.updOrder u hu h))
        · exact List.mem_append.mpr (Or.inr h)
      · intro id a0 ha0
        rw [lookupAction_mapAction] at ha0
        by_cases hs : id = d.actionId
        · rw [if_pos hs, hs, hl] at ha0
          cases ha0
          exact hinv.errNone d.actionId a hl
        · rw [if_neg hs] at ha0
          exact hinv.errNone id a0 ha0

theorem runnerInv_events :
    ∀ (evs : List RunnerEv) (r : Runner), RunnerInv r →
      RunnerInv (applyEvents r evs) := by
  intro evs
  induction evs with
  | nil => intro r h; exact h
  | cons ev rest ih =>
    intro r h
    cases ev with
    | add d => exact ih (addAction r d) (runnerInv_add r d h)
    | submit d => exact ih (runAction r d) (runnerInv_run r d h)

theorem applyEvents_trace :
    ∀ (evs : List RunnerEv) (r : Runner),
      (applyEvents r evs).trace = r.trace := by
  intro evs
  induction evs with
  | nil => intro r; rfl
  | cons ev rest ih =>
    intro r
    cases ev with
    | add d =>
      show (applyEvents (addAction r d) rest).trace = r.trace
      rw [ih]
      cases hl : lookupAction r.actions d.actionId with
      | some a => rw [addAction_of_some r d a hl]
      | none => simp [addAction, hl]
    | submit d =>
      show (applyEvents (runAction r d) rest).trace = r.trace
      rw [ih]
      cases hl : lookupAction r.actions d.actionId with
      | none => rw [runAction_of_none r d hl]
      | some a =>
        by_cases hex : a.executed = true
        · rw [runAction_of_executed r d a hl hex]
        · simp [runAction, hl, hex]

theorem addAction_lookup (r : Runner) (d : ActionCallbackData)
    (hl : lookupAction r.actions d.actionId = none) (s : String) :
    lookupAction (addAction r d).actions s =
      if s = d.actionId
      then some ⟨d.action, "pending", false, false, none⟩
      else lookupAction r.actions s := by
  simp only [addAction, hl]
  rw [lookupAction_append]
  cases hx : lookupAction r.actions s with
  | some x =>
    have hs : ¬ s = d.actionId := by
      intro h
      rw [h, hl] at hx
      cases hx
    simp [hs, hx]
  | none => simp [lookupAction, eq_comm]

theorem addAction_fields (r : Runner) (d : ActionCallbackData) :
    (addAction r d).chain = r.chain ∧ (addAction r d).trace = r.trace ∧
      (addAction r d).fs = r.fs := by
  cases hl : lookupAction r.actions d.actionId with
  | some a => rw [addAction_of_some r d a hl]; exact ⟨rfl, rfl, rfl⟩
  | none => simp [addAction, hl]

theorem runAction_lookup (r : Runner) (d : ActionCallbackData) (a : ActionState)
    (hl : lookupAction r.actions d.actionId = some a) (hex : ¬ a.executed = true)
    (s : String) :
    lookupAction (runAction r d).actions s =
      if s = d.actionId
      then some { a with action := d.action, executed := true }
      else lookupAction r.actions s := by
  simp only [runAction, hl]
  rw [if_neg hex, lookupAction_mapAction]
  by_cases hs : s = d.actionId
  · rw [if_pos hs, if_pos hs, hs, hl]
    rfl
  · rw [if_neg hs, if_neg hs]

theorem runAction_chain_effective (r : Runner) (d : ActionCallbackData)
    (a : ActionState) (hl : lookupAction r.actions d.actionId = some a)
    (hex : ¬ a.executed = true) :
    (runAction r d).chain = r.chain ++ [d.actionId] := by
  simp [runAction, hl, hex]

theorem expectedOrder_congr :
    ∀ (evs : List RunnerEv) (regs1 execs1 regs2 execs2 : List String),
      (∀ s, s ∈ regs1 ↔ s ∈ regs2) → (∀ s, s ∈ execs1 ↔ s ∈ execs2) →
      expectedOrder regs1 execs1 evs = expectedOrder regs2 execs2 evs := by
  intro evs
  induction evs with
  | nil => intro regs1 execs1 regs2 execs2 _ _; rfl
  | cons ev rest ih =>
    intro regs1 execs1 regs2 execs2 hreg hexec
    cases ev with
    | add d =>
      show expectedOrder (d.actionId :: regs1) execs1 rest = _
      refine ih _ _ _ _ ?_ hexec
      intro s
      simp [hreg s]
    | submit d =>
      simp only [expectedOrder]
      by_cases hc : d.actionId ∈ regs1 ∧ ¬ d.actionId ∈ execs1
      · have hc2 : d.actionId ∈ regs2 ∧ ¬ d.actionId ∈ execs2 :=
          ⟨(hreg _).mp hc.1, fun h => hc.2 ((hexec _).mpr h)⟩
        rw [if_pos hc, if_pos hc2]
        congr 1
        refine ih _ _ _ _ hreg ?_
        intro s
        simp [hexec s]
      · have hc2 : ¬ (d.actionId ∈ regs2 ∧ ¬ d.actionId ∈ execs2) := by
          intro h
          exact hc ⟨(hreg _).mpr h.1, fun h2 => h.2 ((hexec _).mp h2)⟩
        rw [if_neg hc, if_neg hc2]
        exact ih _ _ _ _ hreg hexec

theorem applyEvents_chain :
    ∀ (evs : List RunnerEv) (r : Runner) (regs execs : List String),
      (∀ s, s ∈ regs ↔ (lookupAction r.actions s).isSome = true) →
      (∀ s, s ∈ execs ↔ isExecutedB r s = true) →
      (applyEvents r evs).chain = r.chain ++ expectedOrder regs execs evs := by
  intro evs
  induction evs with
  | nil => intro r regs execs _ _; simp [applyEvents, expectedOrder]
  | cons ev rest ih =>
    intro r regs execs hreg hexec
    cases ev with
    | add d =>
      show (applyEvents (addAction r d) rest).chain =
        r.chain ++ expectedOrder (d.actionId :: regs) execs rest
      cases hl : lookupAction r.actions d.actionId with
      | some a =>
        rw [addAction_of_some r d a hl]
        refine ih r _ _ ?_ hexec
        intro s
        by_cases hs : s = d.actionId
        · subst hs
          simp [hl]
        · simp [hs, hreg s]
      | none =>
        have hchain := (addAction_fields r d).1
        rw [ih (addAction r d) (d.actionId :: regs) execs ?_ ?_, hchain]
        · intro s
          rw [addAction_lookup r d hl s]
          by_cases hs : s = d.actionId
          · subst hs; simp
          · simp [hs, hreg s]
        · intro s
          unfold isExecutedB
          rw [addAction_lookup r d hl s]
          by_cases hs : s = d.actionId
          · subst hs
            have h1 := hexec d.actionId
            unfold isExecutedB at h1
            rw [hl] at h1
            simp at h1
            simp [h1]
          · rw [if_neg hs]
            have h1 := hexec s
            unfold isExecutedB at h1
            exact h1
    | submit d =>
      show (applyEvents (runAction r d) rest).chain =
        r.chain ++ (if d.actionId ∈ regs ∧ ¬ d.actionId ∈ execs then _ else _)
      cases hl : lookupAction r.actions d.actionId with
      | none =>
        have hcond : ¬ (d.actionId ∈ regs ∧ ¬ d.actionId ∈ execs) := by
          intro h
          have := (hreg d.actionId).mp h.1
          rw [hl] at this
          cases this
        rw [if_neg hcond, runAction_of_none r d hl]
        exact ih r regs execs hreg hexec
      | some a =>
        by_cases hex : a.executed = true
        · have hcond : ¬ (d.actionId ∈ regs ∧ ¬ d.actionId ∈ execs) := by
            intro h
            refine h.2 ((hexec d.actionId).mpr ?_)
            unfold isExecutedB
            rw [hl]
            exact hex
          rw [if_neg hcond, runAction_of_executed r d a hl hex]
          exact ih r regs execs hreg hexec
        · have hcond : d.actionId ∈ regs ∧ ¬ d.actionId ∈ execs := by
            refine ⟨(hreg d.actionId).mpr (by rw [hl]; rfl), fun h => ?_⟩
            have := (hexec d.actionId).mp h
            unfold isExecutedB at this
            rw [hl] at this
            exact hex this
          rw [if_pos hcond]
          rw [ih (runAction r d) regs (d.actionId :: execs) ?_ ?_,
            runAction_chain_effective r d a hl hex]
          · simp
          · intro s
            rw [runAction_lookup r d a hl hex s]
            by_cases hs : s = d.actionId
            · subst hs
              simp [hcond.1]
            · rw [if_neg hs]
              exact hreg s
          · intro s
            unfold isExecutedB
            rw [runAction_lookup r d a hl hex s]
            by_cases hs : s = d.actionId
            · subst hs; simp
            · rw [if_neg hs]
              have h1 := hexec s
              unfold isExecutedB at h1
              simp [hs, h1]

theorem applyUpdatesAt_core (r : Runner) (i : Nat) (s : String) :
    (lookupAction (applyUpdatesAt r i).actions s).map core =
      (lookupAction r.actions s).map core :=
  applyUpdatesList_core i r.updates r s

theorem executeAction_updates_eq (sb : Sandbox) (r : Runner) (id : String) :
    (executeAction sb r id).updates = r.updates :=
  (executeAction_chain_updates sb r id).2

theorem chainGo_append (sb : Sandbox) :
    ∀ (l1 l2 : List String) (r : Runner) (i : Nat),
      chainGo sb r (l1 ++ l2) i =
        chainGo sb (chainGo sb r l1 i) l2 (i + l1.length) := by
  intro l1
  induction l1 with
  | nil => intro l2 r i; simp [chainGo]
  | cons id rest ih =>
    intro l2 r i
    show chainGo sb (executeAction sb (applyUpdatesAt r i) id) (rest ++ l2) (i + 1)
      = _
    rw [ih l2 (executeAction sb (applyUpdatesAt r i) id) (i + 1)]
    have : i + 1 + rest.length = i + (rest.length + 1) := by omega
    rw [this]
    rfl

theorem chainGo_core_ne (sb : Sandbox) :
    ∀ (rest : List String) (r : Runner) (i : Nat) (id : String),
      id ∉ rest →
      (lookupAction (chainGo sb r rest i).actions id).map core =
        (lookupAction r.actions id).map core := by
  intro rest
  induction rest with
  | nil => intro r i id _; rfl
  | cons j rest2 ih =>
    intro r i id hni
    have hji : ¬ id = j := fun h => hni (h ▸ List.mem_cons_self j rest2)
    show (lookupAction (chainGo sb (executeAction sb (applyUpdatesAt r i) j)
      rest2 (i + 1)).actions id).map core = _
    rw [ih _ (i + 1) id (fun h => hni (List.mem_cons_of_mem j h)),
      executeAction_core_ne sb _ j id hji, applyUpdatesAt_core]

theorem mem_drop_position {pre post : List String} {id : String}
    (hpost : id ∉ post) :
    ∀ {m : Nat}, id ∈ (pre ++ id :: post).drop m → m ≤ pre.length := by
  intro m h
  by_contra hgt
  push_neg at hgt
  obtain ⟨t, ht⟩ : ∃ t, m = (pre ++ [id]).length + t := by
    refine ⟨m - (pre.length + 1), ?_⟩
    simp only [List.length_append, List.length_singleton]
    omega
  have hsplit : (pre ++ id :: post).drop m = post.drop t := by
    have : pre ++ id :: post = (pre ++ [id]) ++ post := by simp
    rw [this, ht, List.drop_append]
  rw [hsplit] at h
  exact hpost (List.mem_of_mem_drop h)

theorem runChain_bf (sb : Sandbox) (r : Runner)
    (hreg : ∀ id ∈ r.chain, (lookupAction r.actions id).isSome = true) :
    bfIds (runChain sb r).trace = bfIds r.trace ++ bfBlocks r.chain := by
  unfold runChain
  rw [(applyUpdatesAt_fields (chainGo sb r r.chain 0) r.chain.length).2.2.1]
  exact chainGo_bf sb r.chain r 0 hreg

/-! ## Claim theorems -/

/-- C1: within one turn, for every sequence of producer events (registrations
and submissions) and every sandbox oracle (covering arbitrarily fast, slow,
queued, failing or throwing sandbox calls), the runner's continuation chain
contains exactly the effectively submitted action ids in submission order,
and settling the chain executes them serialized in exactly that order: the
begin/finish projection of the instrumented trace is the concatenation of
one `[begin id, finish id]` block per submitted id — no interleaving, and
no later-submitted action begins before an earlier-submitted one
finishes. -/
theorem C1_serialized_in_submission_order (fs0 : FilesStore)
    (evs : List RunnerEv) (sb : Sandbox) :
    (applyEvents (initialRunner fs0) evs).chain = expectedOrder [] [] evs ∧
    bfIds (runChain sb (applyEvents (initialRunner fs0) evs)).trace =
      bfBlocks (applyEvents (initialRunner fs0) evs).chain := by
  have hinv := runnerInv_events evs (initialRunner fs0) (runnerInv_initial fs0)
  constructor
  · have h := applyEvents_chain evs (initialRunner fs0) [] []
      (by intro s; simp [lookupAction, initialRunner])
      (by intro s; simp [isExecutedB, lookupAction, initialRunner])
    simpa [initialRunner] using h
  · rw [runChain_bf sb _ hinv.regOfChain, applyEvents_trace]
    simp [initialRunner, bfIds]

theorem core_error {a b : ActionState} (h : core a = core b) : a.error = b.error := by
  have := congrArg (fun t => t.2.2.2) h
  simpa [core] using this

theorem runChain_terminal (sb : Sandbox) (r : Runner) (hinv : RunnerInv r)
    (id : String) (hid : id ∈ r.chain) :
    ∃ a1, lookupAction (runChain sb r).actions id = some a1 ∧
      (a1.status = "complete" ∨ a1.status = "aborted" ∨ a1.status = "failed") ∧
      (¬ a1.status = "failed" → a1.error = none) := by
  obtain ⟨pre, post, hsplit⟩ := List.append_of_mem hid
  have hnd : (pre ++ id :: post).Nodup := by rw [← hsplit]; exact hinv.nodup
  have hpost : id ∉ post := by
    rcases List.nodup_append.mp hnd with ⟨-, hnd2, -⟩
    exact (List.nodup_cons.mp hnd2).1
  have hpre : id ∉ pre := by
    rcases List.nodup_append.mp hnd with ⟨-, -, hdisj⟩
    intro hmem
    exact hdisj hmem (List.mem_cons_self id post)
  -- the state just before id's execution
  have hx0 : (lookupAction r.actions id).isSome = true := hinv.regOfChain id hid
  obtain ⟨a0, ha0⟩ := Option.isSome_iff_exists.mp hx0
  have herr0 : a0.error = none := hinv.errNone id a0 ha0
  have hcore2 :
      (lookupAction (applyUpdatesAt (chainGo sb r pre 0) pre.length).actions id).map
          core = some (core a0) := by
    rw [applyUpdatesAt_core, chainGo_core_ne sb pre r 0 id hpre, ha0]
    rfl
  obtain ⟨a2, ha2, hc2⟩ :
      ∃ a2, lookupAction
          (applyUpdatesAt (chainGo sb r pre 0) pre.length).actions id = some a2 ∧
        core a2 = core a0 := by
    cases hx : lookupAction
        (applyUpdatesAt (chainGo sb r pre 0) pre.length).actions id with
    | none => rw [hx] at hcore2; cases hcore2
    | some a2 =>
      rw [hx] at hcore2
      exact ⟨a2, rfl, Option.some_injective _ hcore2⟩
  have herr2 : a2.error = none := (core_error hc2).trans herr0
  -- execute id
  have hspec := executeAction_spec sb (applyUpdatesAt (chainGo sb r pre 0) pre.length)
    id a2 ha2
  obtain ⟨a3, ha3, hterm, herr3, -⟩ := hspec.2.2.2.2
  -- updates of the state after id's execution are still r.updates
  have hupdeq :
      (executeAction sb (applyUpdatesAt (chainGo sb r pre 0) pre.length) id).updates
        = r.updates := by
    rw [executeAction_updates_eq,
      (applyUpdatesAt_fields (chainGo sb r pre 0) pre.length).2.1,
      (chainGo_chain_updates sb pre r 0).2]
  have hupdlt : ∀ u ∈ (executeAction sb
        (applyUpdatesAt (chainGo sb r pre 0) pre.length) id).updates,
      u.2 = id → u.1 < pre.length + 1 := by
    intro u hu h2
    rw [hupdeq] at hu
    have hmemchain : u.2 ∈ r.chain := by rw [h2]; exact hid
    have hdropped := hinv.updOrder u hu hmemchain
    rw [hsplit, h2] at hdropped
    exact Nat.lt_succ_of_le (mem_drop_position hpost hdropped)
  -- id's entry survives the rest of the chain and the final updates
  have hc3 : lookupAction
      (chainGo sb (executeAction sb
        (applyUpdatesAt (chainGo sb r pre 0) pre.length) id) post
        (pre.length + 1)).actions id = some a3 := by
    rw [chainGo_preserve sb post _ (pre.length + 1) id hpost hupdlt]
    exact ha3
  have hfinal : lookupAction (runChain sb r).actions id = some a3 := by
    unfold runChain
    rw [hsplit, chainGo_append sb pre (id :: post) r 0]
    simp only [Nat.zero_add, chainGo]
    rw [applyUpdatesAt_untouched _ _ id ?_]
    · exact hc3
    · intro u hu hc
      rw [(chainGo_chain_updates sb post _ (pre.length + 1)).2, hupdeq] at hu
      have hle := hupdlt u (by rw [hupdeq]; exact hu) hc.2
      have : u.1 < (pre ++ id :: post).length := by
        simp only [List.length_append, List.length_cons]
        omega
      omega
  exact ⟨a3, hfinal, hterm, fun h => (herr3 h).trans herr2⟩

/-- C2: a failed action never prevents later actions of the same turn from
executing and completing.  First conjunct, for every event sequence and
sandbox oracle: every submitted action is executed (its begin event is in
the trace) and ends in a terminal status — `complete`, `aborted` or
`failed` — with an error recorded only when it is the one that failed; so
an earlier throw never stalls the chain.  Second conjunct, the spec's
concrete test: of three submitted shell actions where only the second's
sandbox call rejects, the first and third reach `complete` with no error
and only the second is `failed`. -/
theorem C2_failed_action_never_blocks_chain :
    (∀ (fs0 : FilesStore) (evs : List RunnerEv) (sb : Sandbox) (id : String),
      id ∈ (applyEvents (initialRunner fs0) evs).chain →
      (∃ a1, lookupAction
          (runChain sb (applyEvents (initialRunner fs0) evs)).actions id = some a1 ∧
        (a1.status = "complete" ∨ a1.status = "aborted" ∨ a1.status = "failed") ∧
        (¬ a1.status = "failed" → a1.error = none)) ∧
      (true, id) ∈ bfIds
        (runChain sb (applyEvents (initialRunner fs0) evs)).trace) ∧
    ((lookupAction rrThree.actions "a1").map (fun a => (a.status, a.error)) =
        some ("complete", none) ∧
      (lookupAction rrThree.actions "a2").map (fun a => (a.status, a.error)) =
        some ("failed", some "Action failed") ∧
      (lookupAction rrThree.actions "a3").map (fun a => (a.status, a.error)) =
        some ("complete", none)) := by
  constructor
  · intro fs0 evs sb id hid
    have hinv := runnerInv_events evs (initialRunner fs0) (runnerInv_initial fs0)
    refine ⟨runChain_terminal sb _ hinv id hid, ?_⟩
    rw [runChain_bf sb _ hinv.regOfChain, applyEvents_trace]
    refine List.mem_append.mpr (Or.inr ?_)
    unfold bfBlocks
    exact List.mem_flatMap.mpr ⟨id, hid, by simp⟩
  · refine ⟨?_, ?_, ?_⟩ <;> decide

/-- Witness for C2: the hypothesis of the universal conjunct discharged at
the concrete scenario, for the third action (submitted after the failing
second one). -/
theorem C2_witness :
    "a3" ∈ (applyEvents (initialRunner emptyFilesStore) evsThree).chain ∧
    ((∃ a1, lookupAction rrThree.actions "a3" = some a1 ∧
        (a1.status = "complete" ∨ a1.status = "aborted" ∨ a1.status = "failed") ∧
        (¬ a1.status = "failed" → a1.error = none)) ∧
      (true, "a3") ∈ bfIds rrThree.trace) :=
  ⟨by decide,
    C2_failed_action_never_blocks_chain.1 emptyFilesStore evsThree sbBoom "a3"
      (by decide)⟩

/-- C7: once an action's stored state has `executed = true`, any further
`runAction` delivery with that id is a silent no-op — the runner state
(actions, chain, everything) is returned unchanged, no error is raised in
the model, and no new execution is scheduled; moreover the continuation
chain of a runner built from any event sequence never carries an id twice,
so each action id is executed at most once per turn. -/
theorem C7_runAction_idempotent_after_execution :
    (∀ (r : Runner) (d : ActionCallbackData) (a : ActionState),
      lookupAction r.actions d.actionId = some a → a.executed = true →
      runAction r d = r) ∧
    (∀ (fs0 : FilesStore) (evs : List RunnerEv),
      (applyEvents (initialRunner fs0) evs).chain.Nodup) := by
  constructor
  · exact fun r d a hl hex => runAction_of_executed r d a hl hex
  · intro fs0 evs
    exact (runnerInv_events evs (initialRunner fs0) (runnerInv_initial fs0)).nodup

/-- Witness for C7: after the three-action scenario's submissions, action
"a2" is stored with `executed = true`, and re-delivering `runAction` for it
leaves the runner untouched. -/
theorem C7_witness :
    lookupAction (applyEvents (initialRunner emptyFilesStore) evsThree).actions
        "a2" = some ⟨BoltAction.shell "c2", "pending", true, false, none⟩ ∧
    runAction (applyEvents (initialRunner emptyFilesStore) evsThree)
        ⟨"a2", BoltAction.shell "z"⟩ =
      applyEvents (initialRunner emptyFilesStore) evsThree :=
  ⟨by decide,
    C7_runAction_idempotent_after_execution.1
      (applyEvents (initialRunner emptyFilesStore) evsThree)
      ⟨"a2", BoltAction.shell "z"⟩
      ⟨BoltAction.shell "c2", "pending", true, false, none⟩ (by decide) rfl⟩

theorem getEntry_setKey_same :
    ∀ (m : List (String × Dirent)) (k : String) (v : Dirent),
      getEntry (setKey m k v) k = some v := by
  intro m
  induction m with
  | nil => intro k v; simp [setKey, getEntry]
  | cons e rest ih =>
    intro k v
    by_cases hk : e.1 = k
    · simp [setKey, getEntry, hk]
    · simp [setKey, getEntry, hk, ih]

theorem addFile_entry (fs : FilesStore) (p c : String) :
    getEntry (fs.addFile p c).files (normalizeLocal p) =
      some (Dirent.file c false) := by
  unfold FilesStore.addFile normalizeLocal
  dsimp only
  split
  · exact getEntry_setKey_same _ _ _
  · exact getEntry_setKey_same _ _ _

theorem sbCall_fs (sb : Sandbox) (r : Runner) (c : SbCall) :
    (sbCall sb r c).1.fs = r.fs := by
  unfold sbCall
  cases sb.respond r.callCount c <;> rfl

theorem mkdirLoop_ok (sb : Sandbox)
    (hok : ∀ (n : Nat) (c : SbCall), ∃ b, sb.respond n c = SbResult.ok b) :
    ∀ (parts : List String) (r : Runner) (cp : String),
      (mkdirLoop sb r cp parts).2 = Except.ok () ∧
        (mkdirLoop sb r cp parts).1.fs = r.fs := by
  intro parts
  induction parts with
  | nil => intro r cp; exact ⟨rfl, rfl⟩
  | cons p rest ih =>
    intro r cp
    cases rest with
    | nil => exact ⟨rfl, rfl⟩
    | cons q rest2 =>
      simp only [mkdirLoop]
      by_cases hsw : strStartsWith (cp ++ "/" ++ p) "/home/user" = true
      · rw [if_pos hsw]
        obtain ⟨b, hb⟩ := hok r.callCount (SbCall.mkdir (cp ++ "/" ++ p))
        have hcallfs := sbCall_fs sb r (SbCall.mkdir (cp ++ "/" ++ p))
        have hcall : (sbCall sb r (SbCall.mkdir (cp ++ "/" ++ p))).2
            = Except.ok b := by
          unfold sbCall
          rw [hb]
        cases hres : sbCall sb r (SbCall.mkdir (cp ++ "/" ++ p)) with
        | mk r1 exc =>
          rw [hres] at hcall hcallfs
          cases exc with
          | ok v =>
            have := ih r1 (cp ++ "/" ++ p)
            exact ⟨this.1, this.2.trans hcallfs⟩
          | error m => cases hcall
      · rw [if_neg hsw]
        exact ih r (cp ++ "/" ++ p)

/-- Counterexample to C3 as stated: a File action executed while the
sandbox write's promise rejects ends `failed` and the local virtual store
still holds nothing at all — `VirtualFileStore.add` was never called, so
the store does not contain the file for this sandbox outcome. -/
theorem C3_counterexample :
    rrOneFile.fs.files = [] ∧
    (lookupAction rrOneFile.actions "f1").map (fun a => a.status) =
      some "failed" := by
  constructor <;> decide

/-- C3 (amended): executing a File action writes the local store for every
sandbox outcome that does not reject — when the sandbox is not ready the
body is exactly the local `add`, and when every sandbox call's promise
resolves (with `true` or `false` alike, covering failed-but-resolved and
queued-then-drained writes) the body succeeds and the store afterwards
contains the file under the normalized path.  A rejected `makeDirectory` or
`writeFile` promise instead propagates out before the local write. -/
theorem C3_local_write_unless_sandbox_rejects (sb : Sandbox) (r : Runner)
    (p c : String) :
    (sb.ready = false →
      runFileActionM sb r p c = ({ r with fs := r.fs.addFile p c }, Except.ok ())) ∧
    ((∀ (n : Nat) (call : SbCall), ∃ b, sb.respond n call = SbResult.ok b) →
      (runFileActionM sb r p c).2 = Except.ok () ∧
      getEntry (runFileActionM sb r p c).1.fs.files (normalizeLocal p) =
        some (Dirent.file c false)) := by
  constructor
  · intro hnr
    simp [runFileActionM, hnr]
  · intro hok
    by_cases hr : sb.ready
    · simp only [runFileActionM, if_pos hr]
      have hmk := mkdirLoop_ok sb hok
        ((splitOnChar '/' (normalizeRemote p)).filter (fun s => s ≠ "")) r ""
      cases hres : mkdirLoop sb r ""
          ((splitOnChar '/' (normalizeRemote p)).filter (fun s => s ≠ "")) with
      | mk r1 exc =>
        rw [hres] at hmk
        cases exc with
        | ok v =>
          dsimp only
          obtain ⟨b, hb⟩ := hok r1.callCount (SbCall.write (normalizeRemote p) c)
          have hcall : (sbCall sb r1 (SbCall.write (normalizeRemote p) c)).2
              = Except.ok b := by
            unfold sbCall
            rw [hb]
          have hcallfs := sbCall_fs sb r1 (SbCall.write (normalizeRemote p) c)
          cases hres2 : sbCall sb r1 (SbCall.write (normalizeRemote p) c) with
          | mk r2 exc2 =>
            rw [hres2] at hcall hcallfs
            cases exc2 with
            | ok v2 =>
              refine ⟨rfl, ?_⟩
              show getEntry (r2.fs.addFile p c).files (normalizeLocal p) = _
              exact addFile_entry r2.fs p c
            | error m => cases hcall
        | error m => cases hmk.1
    · simp only [runFileActionM, if_neg hr]
      exact ⟨by trivial, addFile_entry r.fs p c⟩

/-- Witness for C3 (amended): with an always-resolving sandbox, executing
the File action for "/a.txt" succeeds and the store holds the file at the
normalized key. -/
theorem C3_witness :
    (runFileActionM ⟨true, fun _ _ => SbResult.ok true⟩
        (initialRunner emptyFilesStore) "/a.txt" "hi").2 = Except.ok () ∧
    getEntry (runFileActionM ⟨true, fun _ _ => SbResult.ok true⟩
        (initialRunner emptyFilesStore) "/a.txt" "hi").1.fs.files
        (normalizeLocal "/a.txt") = some (Dirent.file "hi" false) :=
  (C3_local_write_unless_sandbox_rejects ⟨true, fun _ _ => SbResult.ok true⟩
      (initialRunner emptyFilesStore) "/a.txt" "hi").2
    (fun _ _ => ⟨true, rfl⟩)

/-- C10: `setConnected(connected, sandboxId = null)` always stores its
second argument as the new `sandboxId` and always clears `isConnecting`,
for both values of `connected` — so `setConnected(false)` (the JS default
`sandboxId = null`, here `none`) erases a previously stored sandbox id and
cancels an in-progress connecting state; every other field of the module
state is untouched.  (The two e2bStore versions in the source carry the
identical `setConnected` body.) -/
theorem C10_setConnected_always_overwrites (st : E2BStore) (b : Bool)
    (id : Option String) :
    (setConnected st b id).state.isConnected = b ∧
    (setConnected st b id).state.sandboxId = id ∧
    (setConnected st b id).state.isConnecting = false ∧
    (setConnected st b id).state.apiKey = st.state.apiKey ∧
    (setConnected st b id).state.error = st.state.error ∧
    (setConnected st b id).state.isSyncing = st.state.isSyncing ∧
    (setConnected st b id).state.autoCreateTriggered
      = st.state.autoCreateTriggered ∧
    (setConnected st b id).fileWriteCallback = st.fileWriteCallback ∧
    (setConnected st b id).makeDirectoryCallback = st.makeDirectoryCallback ∧
    (setConnected st b id).runCommandCallback = st.runCommandCallback ∧
    (setConnected st b id).pendingOperations = st.pendingOperations ∧
    (setConnected st b id).settlements = st.settlements ∧
    (setConnected st false none).state.sandboxId = none ∧
    (setConnected st false none).state.isConnecting = false :=
  ⟨rfl, rfl, rfl, rfl, rfl, rfl, rfl, rfl, rfl, rfl, rfl, rfl, rfl, rfl⟩

/-- C5: `reset()` restores the connection state to its initial values,
drops every registered callback, rejects each still-queued pending
operation's promise with the "E2B sandbox reset" error (in FIFO order, so
no caller promise is left unsettled), and leaves the queue empty; a
subsequent `registerCallbacks` performs no drain — it settles nothing and
the queue stays empty, so none of the previously queued operations is
resurrected. -/
theorem C5_reset_rejects_pending_and_clears (st : E2BStore)
    (cbs : SandboxCallbacks) :
    (e2bReset st).state = initialConn ∧
    (e2bReset st).fileWriteCallback = none ∧
    (e2bReset st).makeDirectoryCallback = none ∧
    (e2bReset st).runCommandCallback = none ∧
    (e2bReset st).terminalSendInput = none ∧
    (e2bReset st).createSandboxCallback = none ∧
    (e2bReset st).activeTerminalId = none ∧
    (e2bReset st).pendingOperations = [] ∧
    (e2bReset st).settlements = st.settlements ++
      st.pendingOperations.map
        (fun op => (op.opId, Settle.rejected "E2B sandbox reset")) ∧
    (registerSandboxCallbacks (e2bReset st) cbs).settlements =
      (e2bReset st).settlements ∧
    (registerSandboxCallbacks (e2bReset st) cbs).pendingOperations = [] := by
  refine ⟨rfl, rfl, rfl, rfl, rfl, rfl, rfl, rfl, rfl, ?_, ?_⟩ <;>
    simp [registerSandboxCallbacks, processQueue, e2bReset]

theorem drainOps_spec :
    ∀ (ops : List PendingOperation) (st : E2BStore),
      (drainOps st ops).settlements = st.settlements ++ ops.map
        (fun op => (op.opId, settleOf st.fileWriteCallback
          st.makeDirectoryCallback st.runCommandCallback op)) ∧
      (drainOps st ops).fileWriteCallback = st.fileWriteCallback ∧
      (drainOps st ops).makeDirectoryCallback = st.makeDirectoryCallback ∧
      (drainOps st ops).runCommandCallback = st.runCommandCallback ∧
      (drainOps st ops).pendingOperations = st.pendingOperations ∧
      (drainOps st ops).isProcessingQueue = st.isProcessingQueue := by
  intro ops
  induction ops with
  | nil => intro st; simp [drainOps]
  | cons op rest ih =>
    intro st
    have h := ih { st with settlements := st.settlements ++
      [(op.opId, settleOf st.fileWriteCallback st.makeDirectoryCallback
        st.runCommandCallback op)] }
    simp only [drainOps]
    refine ⟨?_, h.2.1, h.2.2.1, h.2.2.2.1, h.2.2.2.2.1, h.2.2.2.2.2⟩
    rw [h.1]
    simp

/-- C4 (amended): a single `registerCallbacks` call installs the callbacks
and drains the entire pending queue in FIFO (enqueue) order, settling each
queued operation's originally returned promise with the outcome of the
drain dispatch `settleOf`: an operation with non-empty arguments is settled
by invoking its newly installed implementation (rejected if and only if
that implementation throws, without discarding the rest of the queue); an
operation with an empty path or command is resolved with `false` without
invoking the implementation.  Afterwards the queue is empty, and calling
`registerCallbacks` again with no pending items performs no second
drain. -/
theorem C4_register_drains_fifo_once (st : E2BStore)
    (cbs cbs2 : SandboxCallbacks) (h : st.isProcessingQueue = false) :
    (registerSandboxCallbacks st cbs).pendingOperations = [] ∧
    (registerSandboxCallbacks st cbs).settlements = st.settlements ++
      st.pendingOperations.map (fun op =>
        (op.opId, settleOf (some cbs.writeFile) (some cbs.makeDirectory)
          (some cbs.runCommand) op)) ∧
    (registerSandboxCallbacks (registerSandboxCallbacks st cbs) cbs2).settlements
      = (registerSandboxCallbacks st cbs).settlements := by
  have hreg : ∀ (st1 : E2BStore) (c : SandboxCallbacks),
      st1.isProcessingQueue = false →
      (registerSandboxCallbacks st1 c).pendingOperations = [] ∧
      (registerSandboxCallbacks st1 c).settlements = st1.settlements ++
        st1.pendingOperations.map (fun op =>
          (op.opId, settleOf (some c.writeFile) (some c.makeDirectory)
            (some c.runCommand) op)) ∧
      (registerSandboxCallbacks st1 c).isProcessingQueue = false := by
    intro st1 c h1
    cases hq : st1.pendingOperations with
    | nil =>
      simp [registerSandboxCallbacks, processQueue, hq, h1]
    | cons op rest =>
      have hd := drainOps_spec (op :: rest)
        { st1 with
          fileWriteCallback := some c.writeFile,
          makeDirectoryCallback := some c.makeDirectory,
          runCommandCallback := some c.runCommand,
          terminalSendInput := some c.sendTerminalInput,
          createSandboxCallback := some c.createSandbox,
          activeTerminalId := c.getActiveTerminalId,
          isProcessingQueue := true,
          pendingOperations := [] }
      simp only [registerSandboxCallbacks, processQueue, hq, h1] at *
      simp only [List.isEmpty_cons, Bool.false_or, if_neg (by simp :
        ¬ (false || false) = true)] at *
      refine ⟨?_, ?_, rfl⟩
      · simpa using hd.2.2.2.2.1
      · simpa using hd.1
  have h1 := hreg st cbs h
  refine ⟨h1.1, h1.2.1, ?_⟩
  have h2 := hreg (registerSandboxCallbacks st cbs) cbs2 h1.2.2
  rw [h2.2.1, h1.1]
  simp

/-- Counterexample to C4 as stated: a queued `writeFile` whose path is the
empty string is settled by the drain with `resolved false`, even though the
newly installed implementation returns `true` — the implementation is never
invoked, so the drain does not settle every queued operation's promise with
its implementation's result. -/
theorem C4_counterexample :
    (registerSandboxCallbacks stEmptyPathQueued cbsAllOk).settlements =
      [(0, Settle.resolved false)] ∧
    cbsAllOk.writeFile "" "c" = Except.ok true ∧
    Settle.resolved false ≠ Settle.resolved true :=
  ⟨rfl, rfl, by decide⟩

/-- Witness for C4 (amended): two queued writes drained in FIFO order with
the installed implementation's results, and a second registration drains
nothing. -/
theorem C4_witness :
    stTwoQueued.isProcessingQueue = false ∧
    ((registerSandboxCallbacks stTwoQueued cbsAllOk).pendingOperations = [] ∧
      (registerSandboxCallbacks stTwoQueued cbsAllOk).settlements =
        stTwoQueued.settlements ++ stTwoQueued.pendingOperations.map (fun op =>
          (op.opId, settleOf (some cbsAllOk.writeFile)
            (some cbsAllOk.makeDirectory) (some cbsAllOk.runCommand) op)) ∧
      (registerSandboxCallbacks
          (registerSandboxCallbacks stTwoQueued cbsAllOk) cbsAllOk).settlements
        = (registerSandboxCallbacks stTwoQueued cbsAllOk).settlements) :=
  ⟨rfl, C4_register_drains_fifo_once stTwoQueued cbsAllOk cbsAllOk rfl⟩

/-- C6: the modification baseline records a path's pre-edit content on the
first `saveFile` that finds an existing File there, and no later save to
the same path overwrites it; from a store holding `p ↦ x` with an empty
baseline, writing `y` then `z` leaves the baseline exactly `{p ↦ x}` (one
entry, mapping to the first prior content), and in general a save to a path
already in the baseline leaves the whole baseline unchanged. -/
theorem C6_first_touch_baseline (fs : FilesStore) (p x y z : String) (b : Bool)
    (h1 : fs.getFile p = some (Dirent.file x b))
    (h2 : fs.modifiedFiles = []) :
    ((fs.saveFile p y).saveFile p z).modifiedFiles = [(p, x)] ∧
    (∀ (fs2 : FilesStore) (q c : String), hasKey fs2.modifiedFiles q = true →
      (fs2.saveFile q c).modifiedFiles = fs2.modifiedFiles) := by
  have hs1 : (fs.saveFile p y).modifiedFiles = [(p, x)] := by
    simp [FilesStore.saveFile, h1, h2, hasKey, mapSet, fileContent]
  constructor
  · set fs1 := fs.saveFile p y with hfs1
    have hk : hasKey fs1.modifiedFiles p = true := by
      rw [hs1]
      simp [hasKey]
    simp [FilesStore.saveFile, hk, hs1, hasKey]
  · intro fs2 q c hq
    simp [FilesStore.saveFile, hq]

/-- Witness for C6: the spec's concrete triple-write example, baseline
`{"/project/a.txt" ↦ "x"}` after writing `y` and `z` over `x`. -/
theorem C6_witness :
    (⟨0, [], [("/project/a.txt", Dirent.file "x" false)]⟩ :
        FilesStore).getFile "/project/a.txt" = some (Dirent.file "x" false) ∧
    (((⟨0, [], [("/project/a.txt", Dirent.file "x" false)]⟩ :
          FilesStore).saveFile "/project/a.txt" "y").saveFile "/project/a.txt"
        "z").modifiedFiles = [("/project/a.txt", "x")] :=
  ⟨by decide,
    (C6_first_touch_baseline
      ⟨0, [], [("/project/a.txt", Dirent.file "x" false)]⟩
      "/project/a.txt" "x" "y" "z" false (by decide) rfl).1⟩

/-- Counterexample to C9 as stated: `add("/src/nested/file.ts", "x")` on an
empty store does create a Folder entry for the work-directory root
`/project` — the root is skipped only when it is the immediate parent, not
when `#ensureFolderExists` walks a deeper chain. -/
theorem C9_counterexample :
    getEntry (emptyFilesStore.addFile "/src/nested/file.ts" "x").files
      WORK_DIR = some Dirent.folder := by
  decide

/-- C9 (amended): `add("/src/nested/file.ts", "x")` on an empty store
normalizes by prefixing `WORK_DIR ++ "/"` (without stripping the leading
slash, so the File key carries a double slash), creates Folder entries for
`/project`, `/project/src` and `/project/src/nested` — including one for
the work-directory root — stores the File entry at
`/project//src/nested/file.ts`, and sets the size counter to 1. -/
theorem C9_add_creates_folder_chain :
    (emptyFilesStore.addFile "/src/nested/file.ts" "x").files =
      [("/project", Dirent.folder), ("/project/src", Dirent.folder),
        ("/project/src/nested", Dirent.folder),
        ("/project//src/nested/file.ts", Dirent.file "x" false)] ∧
    (emptyFilesStore.addFile "/src/nested/file.ts" "x").size = 1 := by
  constructor <;> decide

/-- Counterexample to C8 as stated: reconciling the turn returns
`missing = ["/a.txt"]` (the action's original path, not `"a.txt"`), and the
repaired store holds nothing at `/project/a.txt` — the file lands under the
double-slash key `/project//a.txt` instead. -/
theorem C8_counterexample :
    (syncMissingFiles sbNotReady emptyFilesStore actsOneFile 0).2.1 =
      ⟨1, 1, ["/a.txt"]⟩ ∧
    (syncMissingFiles sbNotReady emptyFilesStore actsOneFile 0).1.getFile
      "/project/a.txt" = none ∧
    (["/a.txt"] : List String) ≠ ["a.txt"] := by
  refine ⟨by decide, by decide, by decide⟩

/-- C8 (amended): the first `reconcile` returns
`{synced: 1, total: 1, missing: ["/a.txt"]}` and afterwards the store
contains the file under the normalized key `/project//a.txt` (the
normalization prefixes `WORK_DIR ++ "/"` to the already-absolute path); a
second `reconcile` with no intervening changes finds that key present and
returns `{synced: 0, total: 1, missing: []}` — the second run repairs
nothing because the first already did. -/
theorem C8_reconcile_idempotent_concrete :
    (syncMissingFiles sbNotReady emptyFilesStore actsOneFile 0).2.1 =
      ⟨1, 1, ["/a.txt"]⟩ ∧
    getEntry (syncMissingFiles sbNotReady emptyFilesStore actsOneFile 0).1.files
      "/project//a.txt" = some (Dirent.file "hi" false) ∧
    (syncMissingFiles sbNotReady
        (syncMissingFiles sbNotReady emptyFilesStore actsOneFile 0).1
        actsOneFile
        (syncMissingFiles sbNotReady emptyFilesStore actsOneFile 0).2.2).2.1 =
      ⟨0, 1, []⟩ := by
  refine ⟨by decide, by decide, by decide⟩

end Engine
